import Mathlib

/-!
# Verification of the grocery price-comparison core

Shallow embedding of the price-comparison and shopping-list optimization
engine of the `grocery_agent` repository
(src/services/price_service.py and src/services/web_scraper.py),
together with proofs checking the natural-language specification
against the embedded code.

Conventions of the embedding:
* Python floats are modelled as rationals; Python `round(x, n)` is
  modelled as round-half-to-even at `n` decimal digits.
* Timestamps (`datetime`) are modelled as integer seconds; `datetime.now()`
  is passed explicitly as a `now : Int` parameter.
* Python dicts that are built by key-assignment are modelled as
  association lists where assignment updates an existing key in place
  (preserving its position, as Python dicts do) and appends new keys.
* Fallible operations (Python code that can raise) return `Option` or
  `Except`; in particular division materialises a ZeroDivisionError
  branch where the Python denominator can be zero.
-/

/-- Python `round` with `ndigits = 0` on an exact rational value:
round-half-to-even.  Written with floor division and remainder on the
numerator and denominator so that it evaluates by kernel reduction. -/
def roundHalfEven (q : ℚ) : ℤ :=
  let d : ℤ := (q.den : ℤ)
  let n : ℤ := q.num.fdiv d
  let r : ℤ := q.num.fmod d
  if 2 * r < d then n
  else if d < 2 * r then n + 1
  else if n % 2 = 0 then n else n + 1

/-- Python `round(x, 2)` on an exact rational value. -/
def round2 (q : ℚ) : ℚ := (roundHalfEven (q * 100) : ℚ) / 100

/-- Python `round(x, 1)` on an exact rational value. -/
def round1 (q : ℚ) : ℚ := (roundHalfEven (q * 10) : ℚ) / 10

/-- Python `min` over a nonempty list (the empty case never arises at the
guarded call sites of the source; we return 0 there). -/
def pyMin (l : List ℚ) : ℚ :=
  match l with
  | [] => 0
  | x :: xs => xs.foldl min x

/-- Python `max` over a nonempty list of rationals (guarded, junk 0 on `[]`). -/
def pyMax (l : List ℚ) : ℚ :=
  match l with
  | [] => 0
  | x :: xs => xs.foldl max x

/-- Python `max` over a nonempty list of integers (guarded, junk 0 on `[]`). -/
def pyMaxZ (l : List ℤ) : ℤ :=
  match l with
  | [] => 0
  | x :: xs => xs.foldl max x

/-- Lookup in an insertion-ordered dict modelled as an association list
(first entry with the key wins, as for a Python dict with unique keys). -/
def dictGet? {α : Type} (l : List (String × α)) (k : String) : Option α :=
  (l.find? (fun p => p.1 = k)).map (·.2)

/-- Key-assignment `d[k] = v` on an insertion-ordered dict: updating an
existing key keeps its position, a new key is appended at the end. -/
def dictSet {α : Type} (l : List (String × α)) (k : String) (v : α) :
    List (String × α) :=
  match l with
  | [] => [(k, v)]
  | (k', v') :: rest =>
      if k' = k then (k, v) :: rest else (k', v') :: dictSet rest k v

/-- `PriceData` row (src/data/models.py): one price observation. -/
structure PriceData where
  product_name : String
  store_name : String
  price : ℚ
  unit : String
  availability : Bool
  source_url : Option String
  scraped_at : ℤ
  deriving Repr, DecidableEq

/-- Per-store entry of `price_by_store`
(price_service.py, `_create_price_comparison`, lines 163-170). -/
structure StoreEntry where
  price : ℚ
  product_name : String
  unit : String
  source_url : Option String
  last_updated : ℤ
  deriving Repr, DecidableEq

/-- `PriceComparison` dataclass (price_service.py, lines 14-26). -/
structure PriceComparison where
  product_name : String
  cheapest_price : ℚ
  cheapest_store : Option String
  average_price : ℚ
  price_range : ℚ × ℚ
  stores_compared : ℕ
  savings_opportunity : ℚ
  price_by_store : List (String × StoreEntry)
  confidence : String
  last_updated : ℤ
  deriving Repr, DecidableEq

/-- The store entry recorded for an observation
(price_service.py, lines 164-170). -/
def entryOf (p : PriceData) : StoreEntry :=
  { price := p.price
    product_name := p.product_name
    unit := p.unit
    source_url := p.source_url
    last_updated := p.scraped_at }

/-- One iteration of the grouping loop of `_create_price_comparison`
(price_service.py, lines 161-171, the `store_prices` part): keep the
lowest-priced observation per store. -/
def storePricesStep (acc : List (String × StoreEntry)) (p : PriceData) :
    List (String × StoreEntry) :=
  match dictGet? acc p.store_name with
  | none => dictSet acc p.store_name (entryOf p)
  | some e =>
      if p.price < e.price then dictSet acc p.store_name (entryOf p) else acc

/-- The `store_prices` dict built by `_create_price_comparison`
(price_service.py, lines 158-171). -/
def storePrices (price_data : List PriceData) : List (String × StoreEntry) :=
  price_data.foldl storePricesStep []

/-- `_calculate_confidence` (price_service.py, lines 204-222).
The recency fraction divides by `len(price_data)`; the source only calls
this with nonempty data (guarded at line 154), so the division is safe. -/
def calculate_confidence (price_data : List PriceData) (store_count : ℕ)
    (now : ℤ) : String :=
  let recent_count := (price_data.filter (fun p => now - 7200 < p.scraped_at)).length
  let recency_score : ℚ := (recent_count : ℚ) / (price_data.length : ℚ)
  let coverage_score : ℚ := min ((store_count : ℚ) / 3) 1
  let confidence_score := (recency_score + coverage_score) / 2
  if confidence_score ≥ 8/10 then "high"
  else if confidence_score ≥ 5/10 then "medium"
  else "low"

/-- `_create_price_comparison` (price_service.py, lines 147-202):
returns `none` for empty data (line 154-155), otherwise aggregates. -/
def create_price_comparison (product_name : String)
    (price_data : List PriceData) (now : ℤ) : Option PriceComparison :=
  match price_data with
  | [] => none
  | p0 :: rest =>
      let pd := p0 :: rest
      let store_prices := storePrices pd
      let all_prices := pd.map (·.price)
      let cheapest_price := pyMin all_prices
      let most_expensive := pyMax all_prices
      let average_price : ℚ := all_prices.sum / (all_prices.length : ℚ)
      let cheapest_store :=
        (store_prices.find? (fun sd => sd.2.price = cheapest_price)).map (·.1)
      let confidence := calculate_confidence pd store_prices.length now
      let savings := most_expensive - cheapest_price
      some
        { product_name := product_name
          cheapest_price := cheapest_price
          cheapest_store := cheapest_store
          average_price := round2 average_price
          price_range := (cheapest_price, most_expensive)
          stores_compared := store_prices.length
          savings_opportunity := round2 savings
          price_by_store := store_prices
          confidence := confidence
          last_updated := pyMaxZ (pd.map (·.scraped_at)) }

/-- `compare_prices` (price_service.py, lines 35-60): per-product
processing is modelled by `f`, whose `Except.error` outcome models an
exception raised while processing that product (caught at lines 56-58)
and whose `Except.ok none` outcome models `_compare_single_product`
returning `None`; successful comparisons are keyed by product name in an
insertion-ordered dict. -/
def compare_prices (f : String → Except String (Option PriceComparison))
    (product_names : List String) : List (String × PriceComparison) :=
  product_names.foldl
    (fun comparisons name =>
      match f name with
      | .error _ => comparisons
      | .ok none => comparisons
      | .ok (some c) => dictSet comparisons name c)
    []

/-! ## List Optimizer (`get_shopping_list_comparison`) -/

/-- One line of the caller-supplied shopping list: `item` name and
`quantity` (the source reads `item.get('quantity', 1)`; a line without
the key is modelled by `quantity = 1`). -/
structure ShoppingItem where
  item : String
  quantity : ℚ
  deriving Repr, DecidableEq

/-- Accumulator entry of the `store_totals` dict
(price_service.py, lines 273-285). -/
structure StoreTotals where
  total : ℚ
  items : ℕ
  confidence_scores : List ℚ
  deriving Repr, DecidableEq

/-- Accumulated state of the loop over the shopping list
(price_service.py, lines 259-285). -/
structure SLAccum where
  store_totals : List (String × StoreTotals)
  items_found : ℕ
  total_savings : ℚ
  deriving Repr, DecidableEq

/-- The literal dict lookup
`{'high': 1.0, 'medium': 0.7, 'low': 0.4}[comparison.confidence]`
(price_service.py, line 284); `none` models the KeyError raised on any
other label. -/
def confidenceValue (confidence : String) : Option ℚ :=
  if confidence = "high" then some 1
  else if confidence = "medium" then some (7/10)
  else if confidence = "low" then some (4/10)
  else none

/-- Inner loop body over `comparison.price_by_store.items()`
(price_service.py, lines 272-285) for one shopping-list line. -/
def slInnerStep (c : PriceComparison) (quantity : ℚ)
    (totals : List (String × StoreTotals)) (se : String × StoreEntry) :
    Except String (List (String × StoreTotals)) :=
  let cur := (dictGet? totals se.1).getD ⟨0, 0, []⟩
  match confidenceValue c.confidence with
  | none => .error "KeyError"
  | some v =>
      .ok (dictSet totals se.1
        ⟨cur.total + se.2.price * quantity, cur.items + 1,
         cur.confidence_scores ++ [v]⟩)

/-- Body of the loop over shopping-list lines
(price_service.py, lines 263-285). -/
def slStep (comparisons : List (String × PriceComparison)) (st : SLAccum)
    (it : ShoppingItem) : Except String SLAccum :=
  match dictGet? comparisons it.item with
  | none => .ok st
  | some c =>
      match c.price_by_store.foldlM (slInnerStep c it.quantity) st.store_totals with
      | .error e => .error e
      | .ok totals =>
          .ok ⟨totals, st.items_found + 1,
               st.total_savings + c.savings_opportunity * it.quantity⟩

/-- The whole accumulation loop of `get_shopping_list_comparison`
(price_service.py, lines 259-285). -/
def slFold (comparisons : List (String × PriceComparison))
    (shopping_list : List ShoppingItem) : Except String SLAccum :=
  shopping_list.foldlM (slStep comparisons) ⟨[], 0, 0⟩

/-- `True` on `none`: `best_total` starts as `float('inf')`
(price_service.py, line 289), modelled as `none`. -/
def ltInfB (x : ℚ) : Option ℚ → Bool
  | none => true
  | some t => decide (x < t)

/-- The coverage-floor test `data['items'] >= items_found * 0.7`
(price_service.py, line 292). -/
def eligibleB (items_found : ℕ) (d : StoreTotals) : Bool :=
  decide ((items_found : ℚ) * (7/10) ≤ (d.items : ℚ))

/-- The best-store selection loop (price_service.py, lines 287-294). -/
def find_best_aux (items_found : ℕ) :
    List (String × StoreTotals) → Option String × Option ℚ →
    Option String × Option ℚ
  | [], best => best
  | (s, d) :: rest, best =>
      find_best_aux items_found rest
        (if ltInfB d.total best.2 && eligibleB items_found d
         then (some s, some d.total) else best)

/-- Per-store confidence labelling (price_service.py, lines 296-307). -/
def store_confidence (scores : List ℚ) : String :=
  match scores with
  | [] => "low"
  | _ =>
      let avg := scores.sum / (scores.length : ℚ)
      if avg ≥ 8/10 then "high"
      else if avg ≥ 6/10 then "medium"
      else "low"

/-- One entry of the returned `store_comparisons` mapping
(price_service.py, lines 312-319). -/
structure StoreComparison where
  total : ℚ
  items_found : ℕ
  confidence : String
  deriving Repr, DecidableEq

/-- The dict returned by `get_shopping_list_comparison`
(price_service.py, lines 309-324). -/
structure SLResult where
  best_store : Option String
  best_total : Option ℚ
  store_comparisons : List (String × StoreComparison)
  items_compared : ℕ
  total_items : ℕ
  potential_savings : ℚ
  coverage : ℚ
  deriving Repr, DecidableEq

/-- `get_shopping_list_comparison` (price_service.py, lines 249-324),
parametrised by the `comparisons` mapping obtained from `compare_prices`
at line 256.  The two ways the source can raise are materialised as
errors: the KeyError of line 284 and the ZeroDivisionError of line 323
(`items_found / len(shopping_list)` with an empty list).  The
conditional `round(best_total, 2) if best_store else None` (line 311)
tests Python truthiness of the store name, false for `None` and for the
empty string. -/
def get_shopping_list_comparison
    (comparisons : List (String × PriceComparison))
    (shopping_list : List ShoppingItem) : Except String SLResult :=
  match slFold comparisons shopping_list with
  | .error e => .error e
  | .ok acc =>
      let best := find_best_aux acc.items_found acc.store_totals (none, none)
      if shopping_list.length = 0 then .error "ZeroDivisionError"
      else
        .ok
          { best_store := best.1
            best_total :=
              match best.1 with
              | none => none
              | some s => if s = "" then none else best.2.map round2
            store_comparisons :=
              acc.store_totals.map (fun sd =>
                (sd.1,
                 { total := round2 sd.2.total
                   items_found := sd.2.items
                   confidence := store_confidence sd.2.confidence_scores }))
            items_compared := acc.items_found
            total_items := shopping_list.length
            potential_savings := round2 acc.total_savings
            coverage :=
              round1 ((acc.items_found : ℚ) / (shopping_list.length : ℚ) * 100) }

/-! ## Acquisition Gate (`_deduplicate_requests`, web_scraper.py) -/

/-- The keys of the `self.stores` dict (web_scraper.py, lines 34-38). -/
def knownStores : List String := ["walmart", "target", "kroger"]

/-- Python `str.lower()`, as a structurally recursive map over the
characters (equivalent to `String.toLower` on ASCII input). -/
def pyLower (s : String) : String :=
  String.mk (s.data.map Char.toLower)

/-- The normalized request key
`f"{product_name.lower()}_{store_name}"` (web_scraper.py, line 96). -/
def requestKey (product store : String) : String :=
  pyLower product ++ "_" ++ store

/-- In-memory state of the gate: the `active_requests` set and the
`request_cache` mapping keys to completion timestamps
(web_scraper.py, lines 43-44). -/
structure GateState where
  active : List String
  cache : List (String × ℤ)
  deriving Repr, DecidableEq

/-- The recency-cache test of web_scraper.py lines 104-107.  The source
computes `(current_time - cache_time).seconds < 600`: the `seconds`
attribute of a timedelta is the in-day remainder (the total seconds
modulo 86400), not the total duration. -/
def recentlyProcessedB (cache : List (String × ℤ)) (now : ℤ)
    (key : String) : Bool :=
  match dictGet? cache key with
  | none => false
  | some t => decide ((now - t) % 86400 < 600)

/-- Inner loop of `_deduplicate_requests` over the stores of one product
(web_scraper.py, lines 92-117).  Returns the updated active set, the
grown unique list, and whether the hard limit of 10 was hit (which
breaks the outer loop too, lines 115-120). -/
def dedupInner (now : ℤ) (cache : List (String × ℤ)) (product : String) :
    List String → List String → List (String × String) →
    List String × List (String × String) × Bool
  | [], active, unique => (active, unique, false)
  | store :: rest, active, unique =>
      if store ∉ knownStores then
        dedupInner now cache product rest active unique
      else
        let key := requestKey product store
        if key ∈ active then
          dedupInner now cache product rest active unique
        else if recentlyProcessedB cache now key then
          dedupInner now cache product rest active unique
        else
          let active' := active ++ [key]
          let unique' := unique ++ [(product, store)]
          if 10 ≤ unique'.length then (active', unique', true)
          else dedupInner now cache product rest active' unique'

/-- Outer loop of `_deduplicate_requests` over product names
(web_scraper.py, lines 91-120). -/
def dedupOuter (now : ℤ) (cache : List (String × ℤ)) (stores : List String) :
    List String → List String → List (String × String) →
    List String × List (String × String)
  | [], active, unique => (active, unique)
  | product :: rest, active, unique =>
      match dedupInner now cache product stores active unique with
      | (active', unique', true) => (active', unique')
      | (active', unique', false) => dedupOuter now cache stores rest active' unique'

/-- `_deduplicate_requests` (web_scraper.py, lines 85-122): returns the
surviving `(product, store)` pairs and the updated gate state (keys of
dispatched pairs are marked in-flight; the cache is not modified here). -/
def deduplicate_requests (st : GateState) (now : ℤ)
    (product_names stores : List String) :
    List (String × String) × GateState :=
  let r := dedupOuter now st.cache stores product_names st.active []
  (r.2, { st with active := r.1 })

/-! ## Price Store Adapter (`save_price_data`, web_scraper.py) -/

/-- A persisted `price_data` row (src/data/models.py, as written by
`save_price_data`). -/
structure DbRow where
  product_name : String
  store_name : String
  price : ℚ
  unit : String
  availability : Bool
  source_url : Option String
  data_source : String
  scraped_at : ℤ
  deriving Repr, DecidableEq

/-- One scraped result dict handed to `save_price_data`
(web_scraper.py; `unit` defaults to "each" via `.get('unit', 'each')`). -/
structure ScrapedResult where
  product_name : String
  store_name : String
  price : ℚ
  unit : Option String
  availability : Bool
  source_url : Option String
  scraped_at : ℤ
  deriving Repr, DecidableEq

/-- In-place update of an existing row (web_scraper.py, lines 190-196):
price, availability, timestamp and source are overwritten; unit and
data_source are left unchanged. -/
def updateRow (r : DbRow) (it : ScrapedResult) : DbRow :=
  { r with
    price := it.price
    availability := it.availability
    scraped_at := it.scraped_at
    source_url := it.source_url }

/-- A freshly inserted row (web_scraper.py, lines 198-209). -/
def newRow (it : ScrapedResult) : DbRow :=
  { product_name := it.product_name
    store_name := it.store_name
    price := it.price
    unit := it.unit.getD "each"
    availability := it.availability
    source_url := it.source_url
    data_source := "web_scraping"
    scraped_at := it.scraped_at }

/-- One iteration of the save loop (web_scraper.py, lines 182-212):
find the first existing row for the same (exact product name, store)
scraped within the last 6 hours; update it in place if found, else
append a new row. -/
def upsertOne (now : ℤ) : List DbRow → ScrapedResult → List DbRow
  | [], it => [newRow it]
  | r :: rest, it =>
      if r.product_name = it.product_name ∧ r.store_name = it.store_name ∧
         now - 21600 < r.scraped_at
      then updateRow r it :: rest
      else r :: upsertOne now rest it

/-- `save_price_data` (web_scraper.py, lines 171-226): upserts each
result in order and returns the new table plus `saved_count`, which is
incremented once per processed result (inserted or updated). -/
def save_price_data (db : List DbRow) (now : ℤ)
    (price_results : List ScrapedResult) : List DbRow × ℕ :=
  price_results.foldl (fun st it => (upsertOne now st.1 it, st.2 + 1)) (db, 0)

/-! ## Spec-side definitions

These definitions follow the wording of the specification (spec.md) and
are used to compare the embedded code against the spec's claims. -/

/-- Modelled from the spec (§4.3 step 6): the Comparison Engine's
confidence bucketing thresholds: score ≥ 0.8 is high, score ≥ 0.5 is
medium, anything lower is low. -/
def specBucketCE (score : ℚ) : String :=
  if score ≥ 8/10 then "high"
  else if score ≥ 5/10 then "medium"
  else "low"

/-- Modelled from the spec (§4.3 step 6): the confidence score is the
average of the recency score (fraction of source observations
timestamped within the last 2 hours) and the coverage score
(min(distinct store count / 3, 1.0)). -/
def specConfidenceScore (price_data : List PriceData) (store_count : ℕ)
    (now : ℤ) : ℚ :=
  let recency : ℚ :=
    (price_data.countP (fun p => now - 7200 < p.scraped_at) : ℚ) /
      (price_data.length : ℚ)
  let coverage : ℚ := min ((store_count : ℚ) / 3) 1
  (recency + coverage) / 2

/-- The distinct stores contributing observations (spec-side view). -/
def specStores (price_data : List PriceData) : List String :=
  (price_data.map (·.store_name)).dedup

/-- The prices observed at one store (spec-side view). -/
def specStorePrices (price_data : List PriceData) (s : String) : List ℚ :=
  (price_data.filter (fun p => p.store_name = s)).map (·.price)

/-- Modelled from the spec (§4.3 step 5): the per-store representative
(best) prices, one value per contributing store: the minimum price among
that store's observations. -/
def specRepPrices (price_data : List PriceData) : List ℚ :=
  (specStores price_data).map (fun s => pyMin (specStorePrices price_data s))

/-- Modelled from the spec (§3, §4.3): the average over the per-store
representative prices. -/
def specAvgOfReps (price_data : List PriceData) : ℚ :=
  (specRepPrices price_data).sum / ((specRepPrices price_data).length : ℚ)

/-- Modelled from the spec (§3, §4.3): savings (max − min) over the
per-store representative prices. -/
def specSavingsOfReps (price_data : List PriceData) : ℚ :=
  pyMax (specRepPrices price_data) - pyMin (specRepPrices price_data)

/-- Modelled from the spec (§3, §4.3): the (min, max) range over the
per-store representative prices. -/
def specRangeOfReps (price_data : List PriceData) : ℚ × ℚ :=
  (pyMin (specRepPrices price_data), pyMax (specRepPrices price_data))

/-- Modelled from the spec (§4.5 step 2): the numeric weight of a
confidence label (high = 1.0, medium = 0.7, low = 0.4; the spec defines
no other label). -/
def specWeight (confidence : String) : ℚ :=
  if confidence = "high" then 1
  else if confidence = "medium" then 7/10
  else 4/10

/-- The weights contributed by one comparison to one store: one copy of
`v` per entry of the comparison's `price_by_store` carrying that store. -/
def weightList (pbs : List (String × StoreEntry)) (s : String) (v : ℚ) :
    List ℚ :=
  pbs.flatMap (fun se => if se.1 = s then [v] else [])

/-- Modelled from the spec (§4.5 steps 2 and 6): the numeric confidence
weights of the comparisons contributing to a store, one weight per
shopping-list line whose resolved comparison lists that store. -/
def specScores (comparisons : List (String × PriceComparison))
    (shopping_list : List ShoppingItem) (s : String) : List ℚ :=
  shopping_list.flatMap (fun it =>
    match dictGet? comparisons it.item with
    | none => []
    | some c => weightList c.price_by_store s (specWeight c.confidence))

/-- The confidence-score list recorded for a store in a `store_totals`
accumulator (empty when the store is absent). -/
def scoresOf (totals : List (String × StoreTotals)) (s : String) : List ℚ :=
  match dictGet? totals s with
  | none => []
  | some d => d.confidence_scores

/-- The keys of an association list. -/
def keysOf {α : Type} (l : List (String × α)) : List String :=
  l.map (·.1)

/-- Modelled from the spec (§4.5 step 6, as amended): the List
Optimizer's per-store confidence label is the bucketing of the mean of
the collected weights with thresholds 0.8 and 0.6. -/
def specBucketOpt (scores : List ℚ) : String :=
  if scores.sum / (scores.length : ℚ) ≥ 8/10 then "high"
  else if scores.sum / (scores.length : ℚ) ≥ 6/10 then "medium"
  else "low"

/-- A comparison with confidence "medium" listing only store "s",
used by the C2 counterexample. -/
def cmpA : PriceComparison :=
  ⟨"a", 2, some "s", 2, (2, 2), 1, 0, [("s", ⟨2, "a", "each", none, 0⟩)],
   "medium", 0⟩

/-- A comparison with confidence "low" listing only store "s",
used by the C2 counterexample. -/
def cmpB : PriceComparison :=
  ⟨"b", 3, some "s", 3, (3, 3), 1, 0, [("s", ⟨3, "b", "each", none, 0⟩)],
   "low", 0⟩

/-- The comparisons mapping of the C2 counterexample. -/
def compsC2 : List (String × PriceComparison) := [("a", cmpA), ("b", cmpB)]

/-- The shopping list of the C2 counterexample: both lines resolve. -/
def listC2 : List ShoppingItem := [⟨"a", 1⟩, ⟨"b", 1⟩]


/-! ## Concrete inputs used by counterexamples and witnesses -/

/-- Concrete input for C3: three fresh observations, two stores; the
store "walmart" carries a non-minimal observation (5) that inflates the
all-observation statistics. -/
def pdC3 : List PriceData :=
  [ ⟨"milk", "walmart", 1, "each", true, none, 0⟩,
    ⟨"milk", "walmart", 5, "each", true, none, 0⟩,
    ⟨"milk", "target", 2, "each", true, none, 0⟩ ]
/-- Concrete input for C5: two stores with three-decimal prices (as the
Kroger mock scraper produces via `price + random.uniform(-0.5, 0.5)`),
for which rounding makes `savings_opportunity` differ from the exact
range difference. -/
def pdC5 : List PriceData :=
  [ ⟨"milk", "walmart", 1111/1000, "each", true, none, 0⟩,
    ⟨"milk", "target", 2333/1000, "each", true, none, 0⟩ ]
/-- Concrete data for the C7 boundary check at score exactly 0.8:
five observations, three of them within the last 2 hours, across three
stores (now = 10000; recent means scraped_at > 2800). -/
def pdC7high : List PriceData :=
  [ ⟨"milk", "walmart", 3, "each", true, none, 9000⟩,
    ⟨"milk", "target", 3, "each", true, none, 9000⟩,
    ⟨"milk", "kroger", 3, "each", true, none, 9000⟩,
    ⟨"milk", "walmart", 3, "each", true, none, 0⟩,
    ⟨"milk", "target", 3, "each", true, none, 0⟩ ]
/-- Concrete data for the C7 boundary check at score exactly 0.5:
three observations, two recent, one store. -/
def pdC7med : List PriceData :=
  [ ⟨"milk", "walmart", 3, "each", true, none, 9000⟩,
    ⟨"milk", "walmart", 3, "each", true, none, 9000⟩,
    ⟨"milk", "walmart", 3, "each", true, none, 0⟩ ]
/-- The comparison value used by the C9 witness. -/
def pcW : PriceComparison :=
  ⟨"a", 1, some "s", 1, (1, 1), 1, 0, [("s", ⟨1, "a", "each", none, 0⟩)],
   "low", 0⟩
/-- Per-product processing used by the C9 witness: product "b" raises,
everything else succeeds with `pcW`. -/
def fW : String → Except String (Option PriceComparison) :=
  fun n => if n = "b" then .error "boom" else .ok (some pcW)
/-- Observations used by the C8 witness: same (name, store), the second
scraped within the freshness window of the first. -/
def itW1 : ScrapedResult := ⟨"Kroger Milk", "kroger", 3, some "each", true, none, 1000⟩
/-- Second observation for the C8 witness (newer price and timestamp). -/
def itW2 : ScrapedResult := ⟨"Kroger Milk", "kroger", 4, some "each", false, some "u", 2000⟩

/-! ## Basic lemmas: Python min/max over lists -/

theorem foldl_min_le_init (xs : List ℚ) (a : ℚ) : xs.foldl min a ≤ a := by
  induction xs generalizing a with
  | nil => exact le_refl a
  | cons y ys ih => exact le_trans (ih (min a y)) (min_le_left a y)

theorem foldl_min_le_mem (xs : List ℚ) : ∀ (a x : ℚ), x ∈ xs →
    xs.foldl min a ≤ x := by
  induction xs with
  | nil => intro a x hx; cases hx
  | cons y ys ih =>
      intro a x hx
      rcases List.mem_cons.mp hx with rfl | h
      · exact le_trans (foldl_min_le_init ys (min a x)) (min_le_right a x)
      · exact ih (min a y) x h

theorem le_foldl_min (xs : List ℚ) (a c : ℚ) (ha : c ≤ a)
    (h : ∀ x ∈ xs, c ≤ x) : c ≤ xs.foldl min a := by
  induction xs generalizing a with
  | nil => exact ha
  | cons y ys ih =>
      exact ih (min a y) (le_min ha (h y (List.mem_cons_self y ys)))
        (fun x hx => h x (List.mem_cons_of_mem y hx))

theorem foldl_min_mem (xs : List ℚ) (a : ℚ) : xs.foldl min a ∈ a :: xs := by
  induction xs generalizing a with
  | nil => exact List.mem_singleton.mpr rfl
  | cons y ys ih =>
      rcases List.mem_cons.mp (ih (min a y)) with h | h
      · rcases min_choice a y with h' | h'
        · exact List.mem_cons.mpr (Or.inl (h.trans h'))
        · exact List.mem_cons.mpr (Or.inr (List.mem_cons.mpr (Or.inl (h.trans h'))))
      · exact List.mem_cons.mpr (Or.inr (List.mem_cons.mpr (Or.inr h)))

theorem pyMin_le (l : List ℚ) (x : ℚ) (hx : x ∈ l) : pyMin l ≤ x := by
  match l with
  | [] => cases hx
  | y :: ys =>
      rcases List.mem_cons.mp hx with rfl | h
      · exact foldl_min_le_init ys x
      · exact foldl_min_le_mem ys y x h

theorem pyMin_mem (l : List ℚ) (hl : l ≠ []) : pyMin l ∈ l := by
  match l with
  | [] => exact absurd rfl hl
  | y :: ys => exact foldl_min_mem ys y

theorem le_pyMin (l : List ℚ) (c : ℚ) (hl : l ≠ []) (h : ∀ x ∈ l, c ≤ x) :
    c ≤ pyMin l := by
  match l with
  | [] => exact absurd rfl hl
  | y :: ys =>
      exact le_foldl_min ys y c (h y (List.mem_cons_self y ys))
        (fun x hx => h x (List.mem_cons_of_mem y hx))

theorem foldl_max_init_le (xs : List ℚ) (a : ℚ) : a ≤ xs.foldl max a := by
  induction xs generalizing a with
  | nil => exact le_refl a
  | cons y ys ih => exact le_trans (le_max_left a y) (ih (max a y))

theorem foldl_max_mem_le (xs : List ℚ) : ∀ (a x : ℚ), x ∈ xs →
    x ≤ xs.foldl max a := by
  induction xs with
  | nil => intro a x hx; cases hx
  | cons y ys ih =>
      intro a x hx
      rcases List.mem_cons.mp hx with rfl | h
      · exact le_trans (le_max_right a x) (foldl_max_init_le ys (max a x))
      · exact ih (max a y) x h

theorem pyMax_ge (l : List ℚ) (x : ℚ) (hx : x ∈ l) : x ≤ pyMax l := by
  match l with
  | [] => cases hx
  | y :: ys =>
      rcases List.mem_cons.mp hx with rfl | h
      · exact foldl_max_init_le ys x
      · exact foldl_max_mem_le ys y x h

/-! ## Basic lemmas: round-half-to-even -/

theorem fdiv_num_den (q : ℚ) : q.num.fdiv q.den = ⌊q⌋ := by
  rw [Rat.floor_def, Int.fdiv_eq_ediv _ (Int.natCast_nonneg q.den)]

theorem roundHalfEven_branches (q : ℚ) :
    roundHalfEven q =
      if q - ⌊q⌋ < 1/2 then ⌊q⌋
      else if 1/2 < q - ⌊q⌋ then ⌊q⌋ + 1
      else if ⌊q⌋ % 2 = 0 then ⌊q⌋ else ⌊q⌋ + 1 := by
  have hden : (0:ℚ) < (q.den : ℚ) := by exact_mod_cast q.pos
  have hd0 : (q.den : ℚ) ≠ 0 := ne_of_gt hden
  have h0 := Rat.num_div_den q
  have hqd : q * (q.den : ℚ) = (q.num : ℚ) := by
    rw [eq_comm, ← div_eq_iff hd0]
    exact h0
  have hfmod : ((q.num.fmod q.den : ℤ) : ℚ) = (q - ⌊q⌋) * (q.den : ℚ) := by
    have h := Int.fmod_add_fdiv q.num (q.den : ℤ)
    rw [fdiv_num_den] at h
    have h' : q.num.fmod q.den = q.num - (q.den : ℤ) * ⌊q⌋ := by linarith
    rw [h']
    push_cast
    linear_combination (-1 : ℚ) * hqd
  have hcond1 : (2 * q.num.fmod q.den < (q.den : ℤ)) ↔ (q - ⌊q⌋ < 1/2) := by
    constructor
    · intro h
      have hc : ((2 * q.num.fmod q.den : ℤ) : ℚ) < ((q.den : ℤ) : ℚ) := by
        exact_mod_cast h
      push_cast at hc
      rw [hfmod] at hc
      nlinarith
    · intro h
      have hc : ((2 * q.num.fmod q.den : ℤ) : ℚ) < ((q.den : ℤ) : ℚ) := by
        push_cast
        rw [hfmod]
        nlinarith
      exact_mod_cast hc
  have hcond2 : ((q.den : ℤ) < 2 * q.num.fmod q.den) ↔ (1/2 < q - ⌊q⌋) := by
    constructor
    · intro h
      have hc : ((q.den : ℤ) : ℚ) < ((2 * q.num.fmod q.den : ℤ) : ℚ) := by
        exact_mod_cast h
      push_cast at hc
      rw [hfmod] at hc
      nlinarith
    · intro h
      have hc : ((q.den : ℤ) : ℚ) < ((2 * q.num.fmod q.den : ℤ) : ℚ) := by
        push_cast
        rw [hfmod]
        nlinarith
      exact_mod_cast hc
  simp only [roundHalfEven]
  rw [fdiv_num_den]
  by_cases h1 : q - ⌊q⌋ < 1/2
  · rw [if_pos (hcond1.mpr h1), if_pos h1]
  · rw [if_neg (fun h => h1 (hcond1.mp h)), if_neg h1]
    by_cases h2 : 1/2 < q - ⌊q⌋
    · rw [if_pos (hcond2.mpr h2), if_pos h2]
    · rw [if_neg (fun h => h2 (hcond2.mp h)), if_neg h2]

theorem roundHalfEven_eq_of_lt_half (q : ℚ) (n : ℤ) (h1 : (n:ℚ) ≤ q)
    (h2 : q < (n:ℚ) + 1/2) : roundHalfEven q = n := by
  have hf : ⌊q⌋ = n := Int.floor_eq_iff.mpr ⟨h1, by linarith⟩
  rw [roundHalfEven_branches, hf, if_pos (by linarith)]

theorem roundHalfEven_eq_of_gt_half (q : ℚ) (n : ℤ) (h1 : (n:ℚ) + 1/2 < q)
    (h2 : q < (n:ℚ) + 1) : roundHalfEven q = n + 1 := by
  have hf : ⌊q⌋ = n := Int.floor_eq_iff.mpr ⟨by linarith, by linarith⟩
  rw [roundHalfEven_branches, hf, if_neg (by intro h; linarith),
    if_pos (by linarith)]

/-! ## Basic lemmas: ordered dicts as association lists -/

theorem dictGet?_nil {α : Type} (k : String) :
    dictGet? ([] : List (String × α)) k = none := rfl

theorem dictGet?_cons {α : Type} (k' : String) (v : α) (l : List (String × α))
    (k : String) :
    dictGet? ((k', v) :: l) k = if k' = k then some v else dictGet? l k := by
  by_cases h : k' = k <;> simp [dictGet?, List.find?, h]

theorem dictGet?_dictSet {α : Type} (l : List (String × α)) (k k' : String)
    (v : α) :
    dictGet? (dictSet l k v) k' = if k = k' then some v else dictGet? l k' := by
  induction l with
  | nil => by_cases h : k = k' <;> simp [dictSet, dictGet?_cons, dictGet?_nil, h]
  | cons p rest ih =>
      obtain ⟨pk, pv⟩ := p
      by_cases hpk : pk = k
      · subst hpk
        simp only [dictSet, if_pos rfl]
        by_cases h : pk = k' <;> simp [dictGet?_cons, h]
      · simp only [dictSet, if_neg hpk]
        by_cases h : pk = k'
        · subst h
          rw [dictGet?_cons, if_pos rfl, dictGet?_cons, if_pos rfl,
            if_neg (fun hkk => hpk hkk.symm)]
        · rw [dictGet?_cons, if_neg h, ih, dictGet?_cons, if_neg h]

theorem mem_dictSet_elim {α : Type} (l : List (String × α)) (k : String)
    (v : α) (sd : String × α) (h : sd ∈ dictSet l k v) :
    sd = (k, v) ∨ sd ∈ l := by
  induction l with
  | nil => simpa [dictSet] using h
  | cons p rest ih =>
      obtain ⟨pk, pv⟩ := p
      by_cases hpk : pk = k
      · subst hpk
        simp only [dictSet, if_pos rfl] at h
        rcases List.mem_cons.mp h with rfl | h'
        · exact Or.inl rfl
        · exact Or.inr (List.mem_cons_of_mem _ h')
      · simp only [dictSet, if_neg hpk] at h
        rcases List.mem_cons.mp h with rfl | h'
        · exact Or.inr (List.mem_cons_self _ _)
        · rcases ih h' with h'' | h''
          · exact Or.inl h''
          · exact Or.inr (List.mem_cons_of_mem _ h'')

theorem self_mem_dictSet {α : Type} (l : List (String × α)) (k : String)
    (v : α) : (k, v) ∈ dictSet l k v := by
  induction l with
  | nil => simp [dictSet]
  | cons p rest ih =>
      obtain ⟨pk, pv⟩ := p
      by_cases hpk : pk = k
      · subst hpk
        simp [dictSet]
      · simp only [dictSet, if_neg hpk]
        exact List.mem_cons_of_mem _ ih

theorem mem_dictSet_of_ne {α : Type} (l : List (String × α)) (k : String)
    (v : α) (sd : String × α) (hsd : sd ∈ l) (hne : sd.1 ≠ k) :
    sd ∈ dictSet l k v := by
  induction l with
  | nil => cases hsd
  | cons p rest ih =>
      obtain ⟨pk, pv⟩ := p
      rcases List.mem_cons.mp hsd with rfl | h'
      · have hpk : pk ≠ k := hne
        simp only [dictSet, if_neg hpk]
        exact List.mem_cons_self _ _
      · by_cases hpk : pk = k
        · subst hpk
          simp only [dictSet, if_pos rfl]
          exact List.mem_cons_of_mem _ h'
        · simp only [dictSet, if_neg hpk]
          exact List.mem_cons_of_mem _ (ih h')

theorem dictGet?_eq_none_iff {α : Type} (l : List (String × α)) (k : String) :
    dictGet? l k = none ↔ ∀ sd ∈ l, sd.1 ≠ k := by
  simp only [dictGet?, Option.map_eq_none', List.find?_eq_none,
    decide_eq_true_eq]

theorem mem_of_dictGet? {α : Type} (l : List (String × α)) (k : String)
    (v : α) (h : dictGet? l k = some v) : (k, v) ∈ l := by
  simp only [dictGet?, Option.map_eq_some'] at h
  obtain ⟨sd, hfind, hv⟩ := h
  have hk := List.find?_some hfind
  simp only [decide_eq_true_eq] at hk
  have hmem := List.mem_of_find?_eq_some hfind
  have : sd = (k, v) := by
    obtain ⟨a, b⟩ := sd
    simp only at hk hv
    rw [hk, hv]
  rwa [this] at hmem

theorem keysOf_dictSet_of_mem {α : Type} (l : List (String × α)) (k : String)
    (v : α) (h : k ∈ keysOf l) : keysOf (dictSet l k v) = keysOf l := by
  induction l with
  | nil => cases h
  | cons p rest ih =>
      obtain ⟨pk, pv⟩ := p
      by_cases hpk : pk = k
      · subst hpk
        simp [dictSet, keysOf]
      · have h' : k ∈ keysOf rest := by
          rcases List.mem_cons.mp h with h'' | h''
          · exact absurd h''.symm hpk
          · exact h''
        simp only [dictSet, if_neg hpk, keysOf, List.map_cons]
        rw [show List.map (·.1) (dictSet rest k v) = keysOf (dictSet rest k v) from rfl,
          ih h']
        rfl

theorem keysOf_dictSet_of_not_mem {α : Type} (l : List (String × α))
    (k : String) (v : α) (h : k ∉ keysOf l) :
    keysOf (dictSet l k v) = keysOf l ++ [k] := by
  induction l with
  | nil => simp [dictSet, keysOf]
  | cons p rest ih =>
      obtain ⟨pk, pv⟩ := p
      have hpk : pk ≠ k := by
        intro hcontra
        exact h (by simp [keysOf, hcontra])
      have h' : k ∉ keysOf rest := by
        intro hcontra
        exact h (by simp [keysOf]; exact Or.inr (by simpa [keysOf] using hcontra))
      simp only [dictSet, if_neg hpk, keysOf, List.map_cons, List.cons_append,
        List.cons.injEq, true_and]
      exact ih h'

theorem dictSet_eq_append_of_not_mem {α : Type} (l : List (String × α))
    (k : String) (v : α) (h : k ∉ keysOf l) :
    dictSet l k v = l ++ [(k, v)] := by
  induction l with
  | nil => rfl
  | cons p rest ih =>
      obtain ⟨pk, pv⟩ := p
      have hpk : pk ≠ k := by
        intro hcontra
        exact h (by simp [keysOf, hcontra])
      have h' : k ∉ keysOf rest := by
        intro hcontra
        exact h (by simp [keysOf]; exact Or.inr (by simpa [keysOf] using hcontra))
      simp only [dictSet, if_neg hpk, List.cons_append, List.cons.injEq, true_and]
      exact ih h'

theorem nodup_keysOf_dictSet {α : Type} (l : List (String × α)) (k : String)
    (v : α) (h : (keysOf l).Nodup) : (keysOf (dictSet l k v)).Nodup := by
  by_cases hk : k ∈ keysOf l
  · rwa [keysOf_dictSet_of_mem l k v hk]
  · rw [keysOf_dictSet_of_not_mem l k v hk]
    simpa [List.nodup_append] using ⟨h, hk⟩

theorem dictGet?_of_mem_of_nodup {α : Type} (l : List (String × α))
    (k : String) (v : α) (hnd : (keysOf l).Nodup) (hmem : (k, v) ∈ l) :
    dictGet? l k = some v := by
  induction l with
  | nil => cases hmem
  | cons p rest ih =>
      obtain ⟨pk, pv⟩ := p
      have hnd' : pk ∉ keysOf rest ∧ (keysOf rest).Nodup := by
        simpa [keysOf] using hnd
      rcases List.mem_cons.mp hmem with heq | h'
      · injection heq with h1 h2
        subst h1
        subst h2
        rw [dictGet?_cons, if_pos rfl]
      · have hk : k ∈ keysOf rest := List.mem_map_of_mem _ h'
        have hpk : pk ≠ k := fun hcontra => hnd'.1 (hcontra ▸ hk)
        rw [dictGet?_cons, if_neg hpk]
        exact ih hnd'.2 h'

theorem mem_keysOf {α : Type} (l : List (String × α)) (k : String) (v : α)
    (h : (k, v) ∈ l) : k ∈ keysOf l :=
  List.mem_map_of_mem _ h

theorem dict_value_unique {α : Type} (l : List (String × α)) (k : String)
    (v v' : α) (hnd : (keysOf l).Nodup) (h : (k, v) ∈ l) (h' : (k, v') ∈ l) :
    v = v' := by
  have e1 := dictGet?_of_mem_of_nodup l k v hnd h
  have e2 := dictGet?_of_mem_of_nodup l k v' hnd h'
  rw [e1] at e2
  injection e2

theorem round2_eq_of_lt_half (q : ℚ) (n : ℤ) (h1 : (n:ℚ) ≤ q * 100)
    (h2 : q * 100 < (n:ℚ) + 1/2) : round2 q = (n:ℚ)/100 := by
  rw [round2, roundHalfEven_eq_of_lt_half _ n h1 h2]

theorem round2_eq_of_gt_half (q : ℚ) (n : ℤ) (h1 : (n:ℚ) + 1/2 < q * 100)
    (h2 : q * 100 < (n:ℚ) + 1) : round2 q = ((n:ℚ)+1)/100 := by
  rw [round2, roundHalfEven_eq_of_gt_half _ n h1 h2]
  push_cast
  ring

/-! ## Lemmas: per-store representative prices vs. all observations -/

theorem mem_specStores (pd : List PriceData) (s : String) :
    s ∈ specStores pd ↔ ∃ p ∈ pd, p.store_name = s := by
  simp [specStores, List.mem_dedup]

theorem specStorePrices_ne_nil (pd : List PriceData) (s : String)
    (h : s ∈ specStores pd) : specStorePrices pd s ≠ [] := by
  obtain ⟨p, hp, hs⟩ := (mem_specStores pd s).mp h
  have : p.price ∈ specStorePrices pd s := by
    simp only [specStorePrices, List.mem_map]
    exact ⟨p, List.mem_filter.mpr ⟨hp, by simp [hs]⟩, rfl⟩
  intro hnil
  rw [hnil] at this
  cases this

theorem specStorePrices_subset (pd : List PriceData) (s : String) (x : ℚ)
    (hx : x ∈ specStorePrices pd s) : x ∈ pd.map (·.price) := by
  simp only [specStorePrices, List.mem_map] at hx
  obtain ⟨p, hp, rfl⟩ := hx
  exact List.mem_map_of_mem _ (List.mem_of_mem_filter hp)

theorem specRepPrices_ne_nil (pd : List PriceData) (hpd : pd ≠ []) :
    specRepPrices pd ≠ [] := by
  simp only [specRepPrices, ne_eq, List.map_eq_nil_iff, specStores,
    List.dedup_eq_nil, List.map_eq_nil_iff]
  exact hpd

theorem pyMin_specRepPrices (pd : List PriceData) (hpd : pd ≠ []) :
    pyMin (specRepPrices pd) = pyMin (pd.map (·.price)) := by
  have hall : pd.map (·.price) ≠ [] := by
    simpa [List.map_eq_nil_iff] using hpd
  apply le_antisymm
  · obtain ⟨x, hx⟩ := List.exists_mem_of_ne_nil _ hall
    have hmin_mem := pyMin_mem _ hall
    obtain ⟨p0, hp0, hp0e⟩ := List.mem_map.mp hmin_mem
    have hs0 : p0.store_name ∈ specStores pd :=
      (mem_specStores pd p0.store_name).mpr ⟨p0, hp0, rfl⟩
    have hrep_mem : pyMin (specStorePrices pd p0.store_name) ∈ specRepPrices pd :=
      List.mem_map_of_mem _ hs0
    have hprice_mem : p0.price ∈ specStorePrices pd p0.store_name := by
      simp only [specStorePrices, List.mem_map]
      exact ⟨p0, List.mem_filter.mpr ⟨hp0, by simp⟩, rfl⟩
    calc pyMin (specRepPrices pd) ≤ pyMin (specStorePrices pd p0.store_name) :=
          pyMin_le _ _ hrep_mem
      _ ≤ p0.price := pyMin_le _ _ hprice_mem
      _ = pyMin (pd.map (·.price)) := hp0e
  · apply le_pyMin _ _ (specRepPrices_ne_nil pd hpd)
    intro r hr
    obtain ⟨s, hs, rfl⟩ := List.mem_map.mp hr
    have hsub := specStorePrices_ne_nil pd s hs
    have := pyMin_mem _ hsub
    exact pyMin_le _ _ (specStorePrices_subset pd s _ this)

/-! ## Lemmas: the `store_prices` grouping keeps the per-store minimum -/

theorem storePricesStep_nodup (acc : List (String × StoreEntry))
    (p : PriceData) (hnd : (keysOf acc).Nodup) :
    (keysOf (storePricesStep acc p)).Nodup := by
  unfold storePricesStep
  cases h : dictGet? acc p.store_name with
  | none => exact nodup_keysOf_dictSet _ _ _ hnd
  | some e =>
      dsimp only
      by_cases hlt : p.price < e.price
      · rw [if_pos hlt]
        exact nodup_keysOf_dictSet _ _ _ hnd
      · rw [if_neg hlt]
        exact hnd

theorem storePricesStep_mem_elim (acc : List (String × StoreEntry))
    (p : PriceData) (sd : String × StoreEntry)
    (hsd : sd ∈ storePricesStep acc p) :
    sd ∈ acc ∨ (sd.1 = p.store_name ∧ sd.2 = entryOf p) := by
  unfold storePricesStep at hsd
  cases h : dictGet? acc p.store_name with
  | none =>
      rw [h] at hsd
      dsimp only at hsd
      rcases mem_dictSet_elim _ _ _ _ hsd with heq | hmem
      · subst heq; exact Or.inr ⟨rfl, rfl⟩
      · exact Or.inl hmem
  | some e =>
      rw [h] at hsd
      dsimp only at hsd
      by_cases hlt : p.price < e.price
      · rw [if_pos hlt] at hsd
        rcases mem_dictSet_elim _ _ _ _ hsd with heq | hmem
        · subst heq; exact Or.inr ⟨rfl, rfl⟩
        · exact Or.inl hmem
      · rw [if_neg hlt] at hsd
        exact Or.inl hsd

theorem storePricesStep_exists_self (acc : List (String × StoreEntry))
    (p : PriceData) :
    ∃ sd ∈ storePricesStep acc p, sd.1 = p.store_name ∧ sd.2.price ≤ p.price := by
  unfold storePricesStep
  cases h : dictGet? acc p.store_name with
  | none =>
      exact ⟨(p.store_name, entryOf p), self_mem_dictSet _ _ _, rfl, le_refl _⟩
  | some e =>
      dsimp only
      by_cases hlt : p.price < e.price
      · rw [if_pos hlt]
        exact ⟨(p.store_name, entryOf p), self_mem_dictSet _ _ _, rfl, le_refl _⟩
      · rw [if_neg hlt]
        exact ⟨(p.store_name, e), mem_of_dictGet? _ _ _ h, rfl, not_lt.mp hlt⟩

theorem storePricesStep_persist (acc : List (String × StoreEntry))
    (p : PriceData) (hnd : (keysOf acc).Nodup) (sd : String × StoreEntry)
    (hsd : sd ∈ acc) :
    ∃ sd' ∈ storePricesStep acc p, sd'.1 = sd.1 ∧ sd'.2.price ≤ sd.2.price := by
  unfold storePricesStep
  cases h : dictGet? acc p.store_name with
  | none =>
      have hne : sd.1 ≠ p.store_name := (dictGet?_eq_none_iff _ _).mp h sd hsd
      exact ⟨sd, mem_dictSet_of_ne _ _ _ _ hsd hne, rfl, le_refl _⟩
  | some e =>
      dsimp only
      by_cases hlt : p.price < e.price
      · rw [if_pos hlt]
        by_cases hkey : sd.1 = p.store_name
        · have hmem_e : (p.store_name, e) ∈ acc := mem_of_dictGet? _ _ _ h
          have hsd_pair : (sd.1, sd.2) ∈ acc := by
            rwa [Prod.mk.eta]
          rw [hkey] at hsd_pair
          have hval : sd.2 = e := dict_value_unique _ _ _ _ hnd hsd_pair hmem_e
          refine ⟨(p.store_name, entryOf p), self_mem_dictSet _ _ _, hkey.symm, ?_⟩
          rw [hval]
          exact le_of_lt hlt
        · exact ⟨sd, mem_dictSet_of_ne _ _ _ _ hsd hkey, rfl, le_refl _⟩
      · rw [if_neg hlt]
        exact ⟨sd, hsd, rfl, le_refl _⟩

theorem storePrices_fold_inv (pd : List PriceData) :
    ∀ (acc : List (String × StoreEntry)), (keysOf acc).Nodup →
      (keysOf (pd.foldl storePricesStep acc)).Nodup ∧
      (∀ sd ∈ pd.foldl storePricesStep acc,
        sd ∈ acc ∨ ∃ p ∈ pd, sd.1 = p.store_name ∧ sd.2 = entryOf p) ∧
      (∀ p ∈ pd, ∃ sd ∈ pd.foldl storePricesStep acc,
        sd.1 = p.store_name ∧ sd.2.price ≤ p.price) ∧
      (∀ sd ∈ acc, ∃ sd' ∈ pd.foldl storePricesStep acc,
        sd'.1 = sd.1 ∧ sd'.2.price ≤ sd.2.price) := by
  induction pd with
  | nil =>
      intro acc hnd
      refine ⟨hnd, fun sd hsd => Or.inl hsd, fun p hp => absurd hp (by simp),
        fun sd hsd => ⟨sd, hsd, rfl, le_refl _⟩⟩
  | cons p pd ih =>
      intro acc hnd
      have hnd' := storePricesStep_nodup acc p hnd
      obtain ⟨ih1, ih2, ih3, ih4⟩ := ih (storePricesStep acc p) hnd'
      rw [List.foldl_cons]
      refine ⟨ih1, ?_, ?_, ?_⟩
      · intro sd hsd
        rcases ih2 sd hsd with hacc' | ⟨p', hp', hk, he⟩
        · rcases storePricesStep_mem_elim acc p sd hacc' with hacc | ⟨hk, he⟩
          · exact Or.inl hacc
          · exact Or.inr ⟨p, List.mem_cons_self _ _, hk, he⟩
        · exact Or.inr ⟨p', List.mem_cons_of_mem _ hp', hk, he⟩
      · intro q hq
        rcases List.mem_cons.mp hq with rfl | hq'
        · obtain ⟨sd, hsd_mem, hsd_k, hsd_le⟩ := storePricesStep_exists_self acc q
          obtain ⟨sd', hsd'_mem, hsd'_k, hsd'_le⟩ := ih4 sd hsd_mem
          exact ⟨sd', hsd'_mem, hsd'_k.trans hsd_k, hsd'_le.trans hsd_le⟩
        · exact ih3 q hq'
      · intro sd hsd
        obtain ⟨sd₁, hsd₁_mem, hsd₁_k, hsd₁_le⟩ :=
          storePricesStep_persist acc p hnd sd hsd
        obtain ⟨sd', hsd'_mem, hsd'_k, hsd'_le⟩ := ih4 sd₁ hsd₁_mem
        exact ⟨sd', hsd'_mem, hsd'_k.trans hsd₁_k, hsd'_le.trans hsd₁_le⟩

theorem storePrices_keys_nodup (pd : List PriceData) :
    (keysOf (storePrices pd)).Nodup :=
  (storePrices_fold_inv pd [] (by simp [keysOf])).1

theorem storePrices_mem_entryOf (pd : List PriceData) (sd : String × StoreEntry)
    (hsd : sd ∈ storePrices pd) :
    ∃ p ∈ pd, sd.1 = p.store_name ∧ sd.2 = entryOf p := by
  rcases (storePrices_fold_inv pd [] (by simp [keysOf])).2.1 sd hsd with h | h
  · cases h
  · exact h

theorem storePrices_exists_le (pd : List PriceData) (p : PriceData)
    (hp : p ∈ pd) :
    ∃ sd ∈ storePrices pd, sd.1 = p.store_name ∧ sd.2.price ≤ p.price :=
  (storePrices_fold_inv pd [] (by simp [keysOf])).2.2.1 p hp

/-! ## Claim theorems -/

/-- C1: the spec requires that an empty shopping list yields the defined
empty optimization without raising; the source instead raises a
ZeroDivisionError at the `coverage` computation
(`items_found / len(shopping_list)` with an empty list,
price_service.py line 323).  This theorem evaluates the embedded code at
the failing input: the result is the error, for every comparisons
mapping. -/
theorem c1_empty_shopping_list_raises :
    ∀ comparisons : List (String × PriceComparison),
      get_shopping_list_comparison comparisons [] =
        Except.error "ZeroDivisionError" :=
  fun _ => rfl

/-- C4: the spec's recency window is "processed within the last 10
minutes", but web_scraper.py line 106 tests
`(current_time - cache_time).seconds < 600`, and `.seconds` is the
in-day remainder of the timedelta.  At the failing input the pair
("milk", "walmart") was processed 86700 seconds (1 day and 5 minutes)
earlier — far outside the 10-minute window — yet it is dropped, because
86700 mod 86400 = 300 < 600.  By contrast a pair processed 86100 seconds
(23 h 55 min) earlier survives, so the drop is exactly the day
wrap-around of `.seconds`, not the stated window. -/
theorem c4_day_wraparound_drops_stale_pair :
    (deduplicate_requests ⟨[], [("milk_walmart", 0)]⟩ 86700
        ["milk"] ["walmart"]).1 = []
    ∧ (600 : ℤ) < 86700 - 0
    ∧ (deduplicate_requests ⟨[], [("milk_walmart", 0)]⟩ 86100
        ["milk"] ["walmart"]).1 = [("milk", "walmart")]
    ∧ (600 : ℤ) < 86100 - 0 := by
  exact ⟨by decide, by decide, by decide, by decide⟩


/-- C3 counterexample: the code computes `average_price`, `price_range`
and `savings_opportunity` over ALL raw observations (price_service.py
lines 171-198), not over the per-store representative prices as the
claim states.  At `pdC3`: the code yields average 2.67, range (1, 5),
savings 4; the per-store representatives are [1, 2], whose mean is 1.5,
range (1, 2) and savings 1. -/
theorem c3_counterexample :
    (create_price_comparison "milk" pdC3 0).map
        (fun c => (c.average_price, c.savings_opportunity, c.price_range)) =
      some (267/100, 4, (1, 5))
    ∧ round2 (specAvgOfReps pdC3) = 3/2
    ∧ specSavingsOfReps pdC3 = 1
    ∧ specRangeOfReps pdC3 = (1, 2)
    ∧ (267/100 : ℚ) ≠ 3/2 ∧ (4 : ℚ) ≠ 1
    ∧ ((1 : ℚ), (5 : ℚ)) ≠ ((1 : ℚ), (2 : ℚ)) := by
  refine ⟨?_, ?_, ?_, by decide, by norm_num, by norm_num, by simp⟩
  · simp only [pdC3, create_price_comparison, storePrices, storePricesStep,
      dictGet?_nil, dictGet?_cons, dictSet, entryOf, pyMin, pyMax,
      List.foldl_cons, List.foldl_nil, List.map_cons, List.map_nil,
      Option.map_some']
    norm_num
    constructor
    · rw [round2_eq_of_gt_half _ 266 (by norm_num) (by norm_num)]
      norm_num
    · rw [round2_eq_of_lt_half _ 400 (by norm_num) (by norm_num)]
      norm_num
  · rw [specAvgOfReps, show specRepPrices pdC3 = [1, 2] from by decide]
    rw [show (([1, 2] : List ℚ).sum / (([1, 2] : List ℚ).length : ℚ)) = 3/2
      from by norm_num]
    rw [round2_eq_of_lt_half _ 150 (by norm_num) (by norm_num)]
    norm_num
  · rw [specSavingsOfReps, show specRepPrices pdC3 = [1, 2] from by decide]
    norm_num [pyMin, pyMax, min_def, max_def]

/-- C3 amended: in `_create_price_comparison` the average price is the
(2-decimal rounded) mean over ALL fresh observation prices — one term
per raw observation, not one per store — the price range is the (min,
max) over all observation prices, and the savings opportunity is the
rounded difference of those two bounds. -/
theorem c3_amended_stats_over_all_observations :
    ∀ (name : String) (pd : List PriceData) (now : ℤ), pd ≠ [] →
      ∃ c, create_price_comparison name pd now = some c ∧
        c.average_price =
          round2 ((pd.map (·.price)).sum / ((pd.map (·.price)).length : ℚ)) ∧
        c.price_range = (pyMin (pd.map (·.price)), pyMax (pd.map (·.price))) ∧
        c.savings_opportunity =
          round2 (pyMax (pd.map (·.price)) - pyMin (pd.map (·.price))) := by
  intro name pd now hpd
  match pd with
  | [] => exact absurd rfl hpd
  | p :: rest => exact ⟨_, rfl, rfl, rfl, rfl⟩

/-- Witness for C3's amended theorem at the concrete input `pdC3`. -/
theorem c3_amended_witness :
    ∃ c, create_price_comparison "milk" pdC3 0 = some c ∧
      c.average_price =
        round2 ((pdC3.map (·.price)).sum / ((pdC3.map (·.price)).length : ℚ)) ∧
      c.price_range = (pyMin (pdC3.map (·.price)), pyMax (pdC3.map (·.price))) ∧
      c.savings_opportunity =
        round2 (pyMax (pdC3.map (·.price)) - pyMin (pdC3.map (·.price))) :=
  c3_amended_stats_over_all_observations "milk" pdC3 0 (by decide)


/-- C5 counterexample: with observations from two stores priced 1.111
and 2.333, the code's `savings_opportunity` is `round(1.222, 2) = 1.22`
(price_service.py line 198) while `price_range[1] - price_range[0]` is
the unrounded 1.222, so the claimed equality fails. -/

theorem c5_counterexample :
    (create_price_comparison "milk" pdC5 0).map
        (fun c => (c.stores_compared, c.savings_opportunity,
          c.price_range.2 - c.price_range.1)) =
      some (2, 61/50, 611/500)
    ∧ (61/50 : ℚ) ≠ 611/500 := by
  constructor
  · have hunfold : create_price_comparison "milk" pdC5 0 = some
        { product_name := "milk"
          cheapest_price := pyMin (pdC5.map (·.price))
          cheapest_store := ((storePrices pdC5).find?
            (fun sd => sd.2.price = pyMin (pdC5.map (·.price)))).map (·.1)
          average_price :=
            round2 ((pdC5.map (·.price)).sum / ((pdC5.map (·.price)).length : ℚ))
          price_range := (pyMin (pdC5.map (·.price)), pyMax (pdC5.map (·.price)))
          stores_compared := (storePrices pdC5).length
          savings_opportunity :=
            round2 (pyMax (pdC5.map (·.price)) - pyMin (pdC5.map (·.price)))
          price_by_store := storePrices pdC5
          confidence := calculate_confidence pdC5 (storePrices pdC5).length 0
          last_updated := pyMaxZ (pdC5.map (·.scraped_at)) } := rfl
    rw [hunfold, Option.map_some']
    have hmin : pyMin (pdC5.map (·.price)) = 1111/1000 := by
      simp only [pdC5, List.map_cons, List.map_nil, pyMin,
        List.foldl_cons, List.foldl_nil]
      norm_num [min_def]
    have hmax : pyMax (pdC5.map (·.price)) = 2333/1000 := by
      simp only [pdC5, List.map_cons, List.map_nil, pyMax,
        List.foldl_cons, List.foldl_nil]
      norm_num [max_def]
    have hsp : storePrices pdC5 =
        [("walmart", ⟨1111/1000, "milk", "each", none, 0⟩),
         ("target", ⟨2333/1000, "milk", "each", none, 0⟩)] := by
      simp only [pdC5, storePrices, List.foldl_cons, List.foldl_nil,
        storePricesStep, dictGet?_nil, dictGet?_cons, dictSet, entryOf,
        String.reduceEq, reduceIte]
    dsimp only
    rw [hmin, hmax, hsp]
    have hsav : round2 (2333/1000 - 1111/1000 : ℚ) = 61/50 := by
      rw [show (2333/1000 - 1111/1000 : ℚ) = 611/500 from by norm_num]
      rw [round2_eq_of_lt_half _ 122 (by norm_num) (by norm_num)]
      norm_num
    rw [hsav]
    norm_num
  · norm_num

/-- C5 amended: for observations spanning at least two stores, the
PriceComparison's `cheapest_price` does equal the minimum over the
per-store representative prices, and `savings_opportunity` equals
`price_range[1] - price_range[0]` ROUNDED to two decimals (they agree
exactly only when the difference has at most two decimals). -/
theorem c5_cheapest_min_savings_rounded_range :
    ∀ (name : String) (pd : List PriceData) (now : ℤ),
      2 ≤ (specStores pd).length →
      ∃ c, create_price_comparison name pd now = some c ∧
        c.cheapest_price = pyMin (specRepPrices pd) ∧
        c.savings_opportunity = round2 (c.price_range.2 - c.price_range.1) := by
  intro name pd now h2
  have hpd : pd ≠ [] := by
    intro h
    rw [h] at h2
    simp [specStores] at h2
  cases pd with
  | nil => exact absurd rfl hpd
  | cons p0 rest =>
      exact ⟨_, rfl, (pyMin_specRepPrices (p0 :: rest) hpd).symm, rfl⟩

/-- Witness for C5's amended theorem at the concrete input `pdC5`. -/
theorem c5_amended_witness :
    ∃ c, create_price_comparison "milk" pdC5 0 = some c ∧
      c.cheapest_price = pyMin (specRepPrices pdC5) ∧
      c.savings_opportunity = round2 (c.price_range.2 - c.price_range.1) :=
  c5_cheapest_min_savings_rounded_range "milk" pdC5 0 (by decide)

/-- C10: for every non-empty observation list, the built PriceComparison
has a non-null `cheapest_store`, the `price_by_store` entry of that
store carries exactly `cheapest_price`, and `cheapest_price` is the
lower bound of `price_range` — the minimum is always attained by a store
present in the per-store mapping. -/
theorem c10_cheapest_store_attains_min :
    ∀ (name : String) (pd : List PriceData) (now : ℤ), pd ≠ [] →
      ∃ c, create_price_comparison name pd now = some c ∧
        ∃ s e, c.cheapest_store = some s ∧
          dictGet? c.price_by_store s = some e ∧
          e.price = c.cheapest_price ∧
          c.cheapest_price = c.price_range.1 := by
  intro name pd now hpd
  cases pd with
  | nil => exact absurd rfl hpd
  | cons p0 rest =>
      have hall : (p0 :: rest).map (·.price) ≠ [] := by simp
      have hcheap_mem := pyMin_mem _ hall
      obtain ⟨q0, hq0, hq0e⟩ := List.mem_map.mp hcheap_mem
      obtain ⟨sd, hsd_mem, hsd_key, hsd_le⟩ :=
        storePrices_exists_le (p0 :: rest) q0 hq0
      obtain ⟨p', hp', hkey', hentry'⟩ :=
        storePrices_mem_entryOf (p0 :: rest) sd hsd_mem
      have hback : sd.2.price = p'.price := by rw [hentry']; rfl
      have hge : pyMin ((p0 :: rest).map (·.price)) ≤ sd.2.price := by
        rw [hback]
        exact pyMin_le _ _ (List.mem_map_of_mem _ hp')
      have heq : sd.2.price = pyMin ((p0 :: rest).map (·.price)) :=
        le_antisymm (hsd_le.trans (le_of_eq hq0e)) hge
      have hfind_ex : ∃ x ∈ storePrices (p0 :: rest),
          (fun sde : String × StoreEntry =>
            decide (sde.2.price = pyMin ((p0 :: rest).map (·.price)))) x =
          true := ⟨sd, hsd_mem, by simp [heq]⟩
      have hisSome : ((storePrices (p0 :: rest)).find?
          (fun sde : String × StoreEntry =>
            decide (sde.2.price = pyMin ((p0 :: rest).map (·.price))))).isSome := by
        rw [List.find?_isSome]
        exact hfind_ex
      obtain ⟨sd₁, hfind⟩ := Option.isSome_iff_exists.mp hisSome
      have hpred := List.find?_some hfind
      simp only [decide_eq_true_eq] at hpred
      have hmem₁ := List.mem_of_find?_eq_some hfind
      refine ⟨_, rfl, sd₁.1, sd₁.2, ?_, ?_, hpred, rfl⟩
      · show ((storePrices (p0 :: rest)).find?
            (fun sde : String × StoreEntry =>
              decide (sde.2.price = pyMin ((p0 :: rest).map (·.price))))).map
            (·.1) = some sd₁.1
        rw [hfind]
        rfl
      · show dictGet? (storePrices (p0 :: rest)) sd₁.1 = some sd₁.2
        apply dictGet?_of_mem_of_nodup _ _ _ (storePrices_keys_nodup (p0 :: rest))
        rwa [Prod.mk.eta]

/-- Witness for C10 at the concrete input `pdC3`. -/
theorem c10_witness :
    ∃ c, create_price_comparison "milk" pdC3 0 = some c ∧
      ∃ s e, c.cheapest_store = some s ∧
        dictGet? c.price_by_store s = some e ∧
        e.price = c.cheapest_price ∧
        c.cheapest_price = c.price_range.1 :=
  c10_cheapest_store_attains_min "milk" pdC3 0 (by decide)

/-! ## Lemmas: the compare_prices batch loop -/

theorem compare_prices_fold (f : String → Except String (Option PriceComparison)) :
    ∀ (names : List String) (acc : List (String × PriceComparison)),
      (∀ n ∈ names, n ∉ keysOf acc) → names.Nodup →
      names.foldl
        (fun comparisons name =>
          match f name with
          | .error _ => comparisons
          | .ok none => comparisons
          | .ok (some c) => dictSet comparisons name c) acc =
      acc ++ names.filterMap (fun n =>
        match f n with
        | .ok (some c) => some (n, c)
        | _ => none) := by
  intro names
  induction names with
  | nil => intro acc _ _; simp
  | cons n ns ih =>
      intro acc hkeys hnd
      rw [List.foldl_cons, List.filterMap_cons]
      have hn_not : n ∉ keysOf acc := hkeys n (List.mem_cons_self _ _)
      have hnd' : ns.Nodup := (List.nodup_cons.mp hnd).2
      have hn_ns : n ∉ ns := (List.nodup_cons.mp hnd).1
      cases hf : f n with
      | error e =>
          dsimp only
          rw [ih acc (fun m hm => hkeys m (List.mem_cons_of_mem _ hm)) hnd']
      | ok oc =>
          cases oc with
          | none =>
              dsimp only
              rw [ih acc (fun m hm => hkeys m (List.mem_cons_of_mem _ hm)) hnd']
          | some c =>
              dsimp only
              rw [dictSet_eq_append_of_not_mem acc n c hn_not]
              rw [ih (acc ++ [(n, c)]) ?keys hnd']
              · simp
              case keys =>
                intro m hm
                have hm_acc : m ∉ keysOf acc :=
                  hkeys m (List.mem_cons_of_mem _ hm)
                have hm_ne : m ≠ n := fun h => hn_ns (h ▸ hm)
                simp only [keysOf, List.map_append, List.map_cons, List.map_nil,
                  List.mem_append, List.mem_cons]
                rintro (h | h)
                · exact hm_acc h
                · rcases h with h | h
                  · exact hm_ne h
                  · cases h

/-- C9: any exception while processing one product only omits that
product from the `compare_prices` result mapping: for a batch of
distinct product names, the result is exactly the per-product successes
in order (so every product after a failing one is still processed), and
a batch splits around any one product independently of whether that
product's processing raises. -/
theorem c9_per_product_failure_isolated :
    (∀ (f : String → Except String (Option PriceComparison))
        (names : List String), names.Nodup →
      compare_prices f names = names.filterMap (fun n =>
        match f n with
        | .ok (some c) => some (n, c)
        | _ => none))
    ∧ (∀ (f : String → Except String (Option PriceComparison))
        (xs ys : List String) (p : String), (xs ++ p :: ys).Nodup →
      compare_prices f (xs ++ p :: ys) =
        compare_prices f xs ++ compare_prices f [p] ++ compare_prices f ys) := by
  have hmain : ∀ (f : String → Except String (Option PriceComparison))
      (names : List String), names.Nodup →
      compare_prices f names = names.filterMap (fun n =>
        match f n with
        | .ok (some c) => some (n, c)
        | _ => none) := by
    intro f names hnd
    unfold compare_prices
    rw [compare_prices_fold f names [] (by simp [keysOf]) hnd]
    simp
  refine ⟨hmain, ?_⟩
  intro f xs ys p hnd
  have h1 : xs.Nodup := ((List.nodup_append).mp hnd).1
  have h2 : (p :: ys).Nodup := ((List.nodup_append).mp hnd).2.1
  have h3 : ys.Nodup := (List.nodup_cons.mp h2).2
  have hp : [p].Nodup := List.nodup_singleton p
  rw [hmain f _ hnd, hmain f _ h1, hmain f _ hp, hmain f _ h3,
    List.filterMap_append, List.filterMap_cons, List.filterMap_cons]
  cases hf : f p with
  | error e => simp
  | ok oc => cases oc with
      | none => simp
      | some c => simp



/-- Witness for C9: in the batch ["a", "b", "c"] the exception at "b"
omits only "b"; "c" (after the failure) is still processed. -/
theorem c9_witness :
    compare_prices fW ["a", "b", "c"] = [("a", pcW), ("c", pcW)] := by
  have h := c9_per_product_failure_isolated.1 fW ["a", "b", "c"] (by decide)
  rw [h]
  rfl



/-- C7: `_calculate_confidence` equals the spec's formula — the bucketing
(≥0.8 high, ≥0.5 medium, else low) of the average of the 2-hour recency
fraction and min(store_count/3, 1) — and the boundary scores bucket
deterministically: a score of exactly 0.8 gives "high" (witnessed by
`pdC7high`, score exactly 4/5) and exactly 0.5 gives "medium"
(witnessed by `pdC7med`, score exactly 1/2). -/
theorem c7_confidence_bucketing :
    (∀ (pd : List PriceData) (store_count : ℕ) (now : ℤ), pd ≠ [] →
      calculate_confidence pd store_count now =
        specBucketCE (specConfidenceScore pd store_count now))
    ∧ specBucketCE (8/10) = "high"
    ∧ specBucketCE (5/10) = "medium"
    ∧ specConfidenceScore pdC7high 3 10000 = 8/10
    ∧ calculate_confidence pdC7high 3 10000 = "high"
    ∧ specConfidenceScore pdC7med 1 10000 = 1/2
    ∧ calculate_confidence pdC7med 1 10000 = "medium" := by
  refine ⟨?_, by norm_num [specBucketCE], by norm_num [specBucketCE],
    ?_, ?_, ?_, ?_⟩
  · intro pd store_count now _
    simp only [calculate_confidence, specBucketCE, specConfidenceScore,
      List.countP_eq_length_filter]
  · simp only [specConfidenceScore, pdC7med, pdC7high, List.countP_cons,
      List.countP_nil, List.length_cons, List.length_nil]
    norm_num [min_def]
  · simp only [calculate_confidence, pdC7high, List.filter, List.length_cons,
      List.length_nil]
    norm_num [min_def]
  · simp only [specConfidenceScore, pdC7med, List.countP_cons,
      List.countP_nil, List.length_cons, List.length_nil]
    norm_num [min_def]
  · simp only [calculate_confidence, pdC7med, List.filter, List.length_cons,
      List.length_nil]
    norm_num [min_def]

/-- Witness for C7 at the concrete input `pdC7high`. -/
theorem c7_witness :
    calculate_confidence pdC7high 3 10000 =
      specBucketCE (specConfidenceScore pdC7high 3 10000) :=
  c7_confidence_bucketing.1 pdC7high 3 10000 (by decide)

/-! ## Lemmas: the save_price_data upsert loop -/

theorem upsertOne_append_no_match (now : ℤ) (it : ScrapedResult) :
    ∀ (db l : List DbRow),
      (∀ r ∈ db, ¬(r.product_name = it.product_name ∧
        r.store_name = it.store_name ∧ now - 21600 < r.scraped_at)) →
      upsertOne now (db ++ l) it = db ++ upsertOne now l it := by
  intro db
  induction db with
  | nil => intro l _; simp
  | cons r db ih =>
      intro l h
      have hr := h r (List.mem_cons_self _ _)
      rw [List.cons_append]
      show (if r.product_name = it.product_name ∧ r.store_name = it.store_name ∧
          now - 21600 < r.scraped_at
        then updateRow r it :: (db ++ l)
        else r :: upsertOne now (db ++ l) it) = r :: (db ++ upsertOne now l it)
      rw [if_neg hr, ih l (fun r' hr' => h r' (List.mem_cons_of_mem _ hr'))]

theorem save_price_data_count_aux (now : ℤ) :
    ∀ (results : List ScrapedResult) (st : List DbRow × ℕ),
      (results.foldl (fun st it => (upsertOne now st.1 it, st.2 + 1)) st).2 =
        st.2 + results.length := by
  intro results
  induction results with
  | nil => intro st; simp
  | cons it results ih =>
      intro st
      rw [List.foldl_cons, ih]
      simp only [List.length_cons]
      omega

/-- C8: upserting an observation twice within the freshness window for
the same (exact product name, store) pair updates the row in place —
after the two calls exactly one row for the pair exists and it carries
the second observation's price, availability, timestamp and source —
while an observation whose existing rows all lie outside the window is
inserted as a new row; and `save_price_data` always returns the number
of processed results (inserted plus updated). -/
theorem c8_upsert_roundtrip :
    (∀ (db : List DbRow) (now : ℤ) (results : List ScrapedResult),
      (save_price_data db now results).2 = results.length)
    ∧ (∀ (db : List DbRow) (now1 now2 : ℤ) (it1 it2 : ScrapedResult),
        (∀ r ∈ db, ¬(r.product_name = it1.product_name ∧
            r.store_name = it1.store_name)) →
        it2.product_name = it1.product_name →
        it2.store_name = it1.store_name →
        now2 - 21600 < it1.scraped_at →
        (save_price_data db now1 [it1]).1 = db ++ [newRow it1] ∧
        (save_price_data (db ++ [newRow it1]) now2 [it2]).1 =
          db ++ [updateRow (newRow it1) it2] ∧
        ((db ++ [updateRow (newRow it1) it2]).filter (fun r =>
            r.product_name = it1.product_name ∧
            r.store_name = it1.store_name)).length = 1 ∧
        (updateRow (newRow it1) it2).price = it2.price ∧
        (updateRow (newRow it1) it2).availability = it2.availability ∧
        (updateRow (newRow it1) it2).scraped_at = it2.scraped_at ∧
        (updateRow (newRow it1) it2).source_url = it2.source_url)
    ∧ (∀ (db : List DbRow) (now : ℤ) (it : ScrapedResult),
        (∀ r ∈ db, r.product_name = it.product_name →
          r.store_name = it.store_name → r.scraped_at ≤ now - 21600) →
        (save_price_data db now [it]).1 = db ++ [newRow it]) := by
  have hsingle : ∀ (db : List DbRow) (now : ℤ) (it : ScrapedResult),
      (save_price_data db now [it]).1 = upsertOne now db it := by
    intro db now it
    simp [save_price_data]
  have hfresh_ins : ∀ (db : List DbRow) (now : ℤ) (it : ScrapedResult),
      (∀ r ∈ db, ¬(r.product_name = it.product_name ∧
        r.store_name = it.store_name ∧ now - 21600 < r.scraped_at)) →
      upsertOne now db it = db ++ [newRow it] := by
    intro db now it h
    have := upsertOne_append_no_match now it db [] h
    simpa using this
  refine ⟨?_, ?_, ?_⟩
  · intro db now results
    rw [save_price_data, save_price_data_count_aux]
    simp
  · intro db now1 now2 it1 it2 hdb hname hstore hfresh
    have hdb1 : ∀ r ∈ db, ¬(r.product_name = it1.product_name ∧
        r.store_name = it1.store_name ∧ now1 - 21600 < r.scraped_at) :=
      fun r hr hc => hdb r hr ⟨hc.1, hc.2.1⟩
    have hdb2 : ∀ r ∈ db, ¬(r.product_name = it2.product_name ∧
        r.store_name = it2.store_name ∧ now2 - 21600 < r.scraped_at) :=
      fun r hr hc => hdb r hr ⟨hname ▸ hc.1, hstore ▸ hc.2.1⟩
    refine ⟨by rw [hsingle, hfresh_ins db now1 it1 hdb1], ?_, ?_, rfl, rfl, rfl, rfl⟩
    · rw [hsingle, upsertOne_append_no_match now2 it2 db [newRow it1] hdb2]
      show db ++ (if (newRow it1).product_name = it2.product_name ∧
          (newRow it1).store_name = it2.store_name ∧
          now2 - 21600 < (newRow it1).scraped_at
        then updateRow (newRow it1) it2 :: []
        else (newRow it1) :: upsertOne now2 [] it2) =
        db ++ [updateRow (newRow it1) it2]
      rw [if_pos ⟨hname.symm, hstore.symm, hfresh⟩]
    · rw [List.filter_append]
      have hdbnil : db.filter (fun r =>
          decide (r.product_name = it1.product_name ∧
            r.store_name = it1.store_name)) = [] := by
        rw [List.filter_eq_nil_iff]
        intro r hr
        simpa using hdb r hr
      rw [hdbnil]
      have hone : ([updateRow (newRow it1) it2] : List DbRow).filter (fun r =>
          decide (r.product_name = it1.product_name ∧
            r.store_name = it1.store_name)) = [updateRow (newRow it1) it2] := by
        simp [updateRow, newRow]
      rw [hone]
      rfl
  · intro db now it h
    rw [hsingle]
    apply hfresh_ins
    intro r hr hc
    have := h r hr hc.1 hc.2.1
    have := hc.2.2
    omega



/-- Witness for C8: the double upsert starting from an empty table. -/
theorem c8_witness :
    (save_price_data [] 1500 [itW1]).1 = [] ++ [newRow itW1] ∧
    (save_price_data ([] ++ [newRow itW1]) 2500 [itW2]).1 =
      [] ++ [updateRow (newRow itW1) itW2] ∧
    ((([] : List DbRow) ++ [updateRow (newRow itW1) itW2]).filter (fun r =>
        r.product_name = itW1.product_name ∧
        r.store_name = itW1.store_name)).length = 1 ∧
    (updateRow (newRow itW1) itW2).price = itW2.price ∧
    (updateRow (newRow itW1) itW2).availability = itW2.availability ∧
    (updateRow (newRow itW1) itW2).scraped_at = itW2.scraped_at ∧
    (updateRow (newRow itW1) itW2).source_url = itW2.source_url :=
  c8_upsert_roundtrip.2.1 [] 1500 2500 itW1 itW2 (by simp) rfl rfl (by decide)

/-! ## Lemmas: the shopping-list accumulation loop -/

theorem confidenceValue_specWeight (conf : String) (v : ℚ)
    (h : confidenceValue conf = some v) : v = specWeight conf := by
  unfold confidenceValue at h
  unfold specWeight
  by_cases h1 : conf = "high"
  · rw [if_pos h1] at h
    rw [if_pos h1]
    injection h with h'
    exact h'.symm
  · rw [if_neg h1] at h
    rw [if_neg h1]
    by_cases h2 : conf = "medium"
    · rw [if_pos h2] at h
      rw [if_pos h2]
      injection h with h'
      exact h'.symm
    · rw [if_neg h2] at h
      rw [if_neg h2]
      by_cases h3 : conf = "low"
      · rw [if_pos h3] at h
        injection h with h'
        exact h'.symm
      · rw [if_neg h3] at h
        cases h

theorem getD_scoresOf (totals : List (String × StoreTotals)) (s : String) :
    ((dictGet? totals s).getD ⟨0, 0, []⟩).confidence_scores = scoresOf totals s := by
  cases h : dictGet? totals s <;> simp [scoresOf, h]

theorem scoresOf_dictSet (totals : List (String × StoreTotals)) (k s : String)
    (d : StoreTotals) :
    scoresOf (dictSet totals k d) s =
      if k = s then d.confidence_scores else scoresOf totals s := by
  unfold scoresOf
  rw [dictGet?_dictSet]
  by_cases h : k = s
  · rw [if_pos h, if_pos h]
  · rw [if_neg h, if_neg h]

theorem weightList_cons (se : String × StoreEntry)
    (pbs : List (String × StoreEntry)) (s : String) (v : ℚ) :
    weightList (se :: pbs) s v =
      (if se.1 = s then [v] else []) ++ weightList pbs s v := by
  unfold weightList
  rw [List.flatMap_cons]

theorem slInner_fold (c : PriceComparison) (q : ℚ) :
    ∀ (pbs : List (String × StoreEntry))
      (totals totals' : List (String × StoreTotals)),
      pbs.foldlM (slInnerStep c q) totals = Except.ok totals' →
      (∀ s, scoresOf totals' s =
        scoresOf totals s ++ weightList pbs s (specWeight c.confidence)) ∧
      ((keysOf totals).Nodup → (keysOf totals').Nodup) ∧
      ((∀ sd ∈ totals, sd.2.confidence_scores ≠ []) →
        ∀ sd ∈ totals', sd.2.confidence_scores ≠ []) := by
  intro pbs
  induction pbs with
  | nil =>
      intro totals totals' h
      rw [List.foldlM_nil] at h
      cases h
      exact ⟨fun s => by simp [weightList], id, fun hne sd hsd => hne sd hsd⟩
  | cons se pbs ih =>
      intro totals totals' h
      rw [List.foldlM_cons] at h
      cases hv : confidenceValue c.confidence with
      | none =>
          rw [show slInnerStep c q totals se = Except.error "KeyError" from by
            unfold slInnerStep
            rw [hv]] at h
          cases h
      | some v =>
          rw [show slInnerStep c q totals se = Except.ok
              (dictSet totals se.1
                ⟨((dictGet? totals se.1).getD ⟨0, 0, []⟩).total + se.2.price * q,
                 ((dictGet? totals se.1).getD ⟨0, 0, []⟩).items + 1,
                 ((dictGet? totals se.1).getD ⟨0, 0, []⟩).confidence_scores ++ [v]⟩)
            from by
              unfold slInnerStep
              rw [hv]] at h
          have h' := h
          obtain ⟨ihs, ihn, ihe⟩ := ih _ totals' h'
          have hv_eq : v = specWeight c.confidence :=
            confidenceValue_specWeight c.confidence v hv
          refine ⟨?_, ?_, ?_⟩
          · intro s
            rw [ihs s, scoresOf_dictSet, weightList_cons]
            by_cases hks : se.1 = s
            · rw [if_pos hks, if_pos hks]
              dsimp only
              rw [getD_scoresOf, ← hks, hv_eq, List.append_assoc]
            · rw [if_neg hks, if_neg hks]
              rw [List.nil_append]
          · intro hnd
            exact ihn (nodup_keysOf_dictSet _ _ _ hnd)
          · intro hne
            apply ihe
            intro sd hsd
            rcases mem_dictSet_elim _ _ _ _ hsd with heq | hmem
            · rw [heq]
              simp
            · exact hne sd hmem

theorem slFold_inv (comps : List (String × PriceComparison)) :
    ∀ (list : List ShoppingItem) (st acc : SLAccum),
      list.foldlM (slStep comps) st = Except.ok acc →
      (∀ s, scoresOf acc.store_totals s =
        scoresOf st.store_totals s ++ specScores comps list s) ∧
      ((keysOf st.store_totals).Nodup → (keysOf acc.store_totals).Nodup) ∧
      ((∀ sd ∈ st.store_totals, sd.2.confidence_scores ≠ []) →
        ∀ sd ∈ acc.store_totals, sd.2.confidence_scores ≠ []) := by
  intro list
  induction list with
  | nil =>
      intro st acc h
      rw [List.foldlM_nil] at h
      cases h
      exact ⟨fun s => by simp [specScores], id, fun hne sd hsd => hne sd hsd⟩
  | cons it list ih =>
      intro st acc h
      rw [List.foldlM_cons] at h
      cases hc : dictGet? comps it.item with
      | none =>
          rw [show slStep comps st it = Except.ok st from by
            unfold slStep
            rw [hc]] at h
          obtain ⟨ihs, ihn, ihe⟩ := ih st acc h
          refine ⟨?_, ihn, ihe⟩
          intro s
          rw [ihs s]
          unfold specScores
          rw [List.flatMap_cons]
          rw [hc]
          simp
      | some c =>
          cases hinner : c.price_by_store.foldlM (slInnerStep c it.quantity)
              st.store_totals with
          | error e =>
              rw [show slStep comps st it = Except.error e from by
                unfold slStep
                rw [hc]
                dsimp only
                rw [hinner]] at h
              cases h
          | ok totals1 =>
              rw [show slStep comps st it = Except.ok
                  ⟨totals1, st.items_found + 1,
                   st.total_savings + c.savings_opportunity * it.quantity⟩ from by
                unfold slStep
                rw [hc]
                dsimp only
                rw [hinner]] at h
              obtain ⟨jhs, jhn, jhe⟩ := slInner_fold c it.quantity _ _ _ hinner
              obtain ⟨ihs, ihn, ihe⟩ := ih _ acc h
              refine ⟨?_, fun hnd => ihn (jhn hnd), fun hne => ihe (jhe hne)⟩
              intro s
              rw [ihs s]
              dsimp only
              rw [jhs s]
              unfold specScores
              rw [List.flatMap_cons]
              rw [hc, List.append_assoc]

theorem except_bind_ok {α β : Type} (a : α) (f : α → Except String β) :
    (Except.ok a >>= f : Except String β) = f a := rfl

theorem except_pure_eq {α : Type} (a : α) :
    (pure a : Except String α) = Except.ok a := rfl

theorem store_confidence_eq_specBucketOpt (scores : List ℚ)
    (h : scores ≠ []) : store_confidence scores = specBucketOpt scores := by
  cases scores with
  | nil => exact absurd rfl h
  | cons x xs => rfl

theorem slFoldC2_eval : slFold compsC2 listC2 = Except.ok
    ⟨[("s", ⟨5, 2, [7/10, 4/10]⟩)], 2, 0⟩ := by
  simp only [slFold, listC2, compsC2, List.foldlM_cons, List.foldlM_nil,
    slStep, slInnerStep, cmpA, cmpB, dictGet?_cons, dictGet?_nil,
    confidenceValue, dictSet, String.reduceEq, reduceIte, except_bind_ok,
    except_pure_eq, Option.getD_some, Option.getD_none]
  norm_num

theorem getC2_eval : ∃ r,
    get_shopping_list_comparison compsC2 listC2 = Except.ok r ∧
    dictGet? r.store_comparisons "s" = some ⟨round2 5, 2, "low"⟩ ∧
    r.best_store = some "s" := by
  unfold get_shopping_list_comparison
  rw [slFoldC2_eval]
  dsimp only
  rw [if_neg (by decide : ¬listC2.length = 0)]
  refine ⟨_, rfl, ?_, ?_⟩
  · simp only [List.map_cons, List.map_nil]
    rw [dictGet?_cons, if_pos rfl]
    have hconf : store_confidence [7/10, 4/10] = "low" := by
      rw [store_confidence_eq_specBucketOpt _ (by simp), specBucketOpt]
      norm_num
    rw [hconf]
  · show (find_best_aux 2 [("s", ⟨5, 2, [7/10, 4/10]⟩)] (none, none)).1 = some "s"
    have hcond : (ltInfB (5:ℚ) none &&
        eligibleB 2 ⟨5, 2, [7/10, 4/10]⟩) = true := by
      rw [Bool.and_eq_true]
      refine ⟨rfl, ?_⟩
      rw [eligibleB]
      exact decide_eq_true (by norm_num)
    simp only [find_best_aux]
    rw [if_pos hcond]

/-- C2 counterexample: with two resolved list lines whose comparisons
have confidence "medium" (weight 0.7) and "low" (weight 0.4), both
listing store "s", the optimizer's store confidence is "low"
(price_service.py line 302 buckets the mean 0.55 against 0.6), while the
claim's thresholds — the Comparison Engine's ≥0.8/≥0.5 of §4.3 — would
bucket the same mean 0.55 as "medium". -/
theorem c2_counterexample :
    ((get_shopping_list_comparison compsC2 listC2).toOption.bind
        (fun r => dictGet? r.store_comparisons "s")).map (·.confidence) =
      some "low"
    ∧ specScores compsC2 listC2 "s" = [7/10, 4/10]
    ∧ specBucketCE (([7/10, 4/10] : List ℚ).sum /
        ((([7/10, 4/10] : List ℚ).length : ℕ) : ℚ)) = "medium"
    ∧ ("low" : String) ≠ "medium" := by
  refine ⟨?_, ?_, ?_, by decide⟩
  · obtain ⟨r, hget, hdict, _⟩ := getC2_eval
    rw [hget]
    simp [Except.toOption, hdict]
  · simp [specScores, compsC2, listC2, dictGet?_cons, dictGet?_nil,
      weightList, cmpA, cmpB, specWeight]
  · rw [specBucketCE]
    norm_num

/-- C2 amended: each store entry of the optimizer's result carries the
confidence label obtained by averaging the numeric weights (high = 1.0,
medium = 0.7, low = 0.4) of the comparisons contributing to that store
and bucketing the mean with thresholds 0.8 and 0.6 — not the Comparison
Engine's 0.5 "medium" threshold. -/
theorem c2_store_confidence_mean_bucket_06 :
    ∀ (comparisons : List (String × PriceComparison))
      (shopping_list : List ShoppingItem) (r : SLResult) (s : String)
      (sc : StoreComparison),
      get_shopping_list_comparison comparisons shopping_list = Except.ok r →
      (s, sc) ∈ r.store_comparisons →
      specScores comparisons shopping_list s ≠ [] ∧
      sc.confidence = specBucketOpt (specScores comparisons shopping_list s) := by
  intro comps list r s sc hget hmem
  unfold get_shopping_list_comparison at hget
  cases hfold : slFold comps list with
  | error e => rw [hfold] at hget; cases hget
  | ok acc =>
      rw [hfold] at hget
      dsimp only at hget
      by_cases hlen : list.length = 0
      · rw [if_pos hlen] at hget
        cases hget
      · rw [if_neg hlen] at hget
        injection hget with hr
        subst hr
        dsimp only at hmem
        obtain ⟨sd, hsd, heq⟩ := List.mem_map.mp hmem
        injection heq with h1 h2
        obtain ⟨hscores, hnodup, hne⟩ :=
          slFold_inv comps list ⟨[], 0, 0⟩ acc
            (by unfold slFold at hfold; exact hfold)
        have hnd : (keysOf acc.store_totals).Nodup := hnodup (by simp [keysOf])
        have hne' : ∀ sd' ∈ acc.store_totals, sd'.2.confidence_scores ≠ [] :=
          hne (by simp)
        have hget2 : dictGet? acc.store_totals s = some sd.2 := by
          apply dictGet?_of_mem_of_nodup _ _ _ hnd
          rw [← h1, Prod.mk.eta]
          exact hsd
        have hscores_sd : sd.2.confidence_scores = specScores comps list s := by
          have hs1 : scoresOf acc.store_totals s = sd.2.confidence_scores := by
            unfold scoresOf
            rw [hget2]
        
          rw [← hs1, hscores s]
          simp [scoresOf, dictGet?_nil]
        constructor
        · rw [← hscores_sd]
          exact hne' sd hsd
        · have hsc : sc.confidence = store_confidence sd.2.confidence_scores := by
            rw [← h2]
          rw [hsc, hscores_sd,
            store_confidence_eq_specBucketOpt _
              (by rw [← hscores_sd]; exact hne' sd hsd)]

/-- Witness for C2's amended theorem at the concrete input of the
counterexample. -/
theorem c2_amended_witness :
    specScores compsC2 listC2 "s" ≠ [] ∧
    (⟨round2 5, 2, "low"⟩ : StoreComparison).confidence =
      specBucketOpt (specScores compsC2 listC2 "s") := by
  obtain ⟨r, hget, hdict, _⟩ := getC2_eval
  exact c2_store_confidence_mean_bucket_06 compsC2 listC2 r "s"
    ⟨round2 5, 2, "low"⟩ hget (mem_of_dictGet? _ _ _ hdict)

/-! ## Lemmas: the best-store selection loop -/

theorem find_best_aux_mono (items_found : ℕ) :
    ∀ (l : List (String × StoreTotals)) (b : Option String × Option ℚ) (t : ℚ),
      b.2 = some t →
      ∃ u, (find_best_aux items_found l b).2 = some u ∧ u ≤ t := by
  intro l
  induction l with
  | nil => intro b t hb; exact ⟨t, hb, le_refl t⟩
  | cons sd rest ih =>
      obtain ⟨s, d⟩ := sd
      intro b t hb
      simp only [find_best_aux]
      by_cases hcond : (ltInfB d.total b.2 && eligibleB items_found d) = true
      · rw [if_pos hcond]
        have hlt : d.total < t := by
          have h1 : ltInfB d.total b.2 = true := by
            rw [Bool.and_eq_true] at hcond
            exact hcond.1
          rw [hb] at h1
          unfold ltInfB at h1
          simpa using h1
        obtain ⟨u, hu, hle⟩ := ih (some s, some d.total) d.total rfl
        exact ⟨u, hu, le_trans hle (le_of_lt hlt)⟩
      · rw [if_neg hcond]
        exact ih b t hb

theorem find_best_aux_result (items_found : ℕ) :
    ∀ (l : List (String × StoreTotals)) (b : Option String × Option ℚ),
      find_best_aux items_found l b = b ∨
      ∃ s d, (s, d) ∈ l ∧ eligibleB items_found d = true ∧
        find_best_aux items_found l b = (some s, some d.total) := by
  intro l
  induction l with
  | nil => intro b; exact Or.inl rfl
  | cons sd rest ih =>
      obtain ⟨s, d⟩ := sd
      intro b
      simp only [find_best_aux]
      by_cases hcond : (ltInfB d.total b.2 && eligibleB items_found d) = true
      · rw [if_pos hcond]
        rw [Bool.and_eq_true] at hcond
        rcases ih (some s, some d.total) with h | ⟨s', d', hmem, helig, hres⟩
        · exact Or.inr ⟨s, d, List.mem_cons_self _ _, hcond.2, h⟩
        · exact Or.inr ⟨s', d', List.mem_cons_of_mem _ hmem, helig, hres⟩
      · rw [if_neg hcond]
        rcases ih b with h | ⟨s', d', hmem, helig, hres⟩
        · exact Or.inl h
        · exact Or.inr ⟨s', d', List.mem_cons_of_mem _ hmem, helig, hres⟩

theorem find_best_aux_min (items_found : ℕ) :
    ∀ (l : List (String × StoreTotals)) (b : Option String × Option ℚ)
      (s : String) (d : StoreTotals),
      (s, d) ∈ l → eligibleB items_found d = true →
      ∃ u, (find_best_aux items_found l b).2 = some u ∧ u ≤ d.total := by
  intro l
  induction l with
  | nil => intro b s d hmem _; cases hmem
  | cons sd rest ih =>
      obtain ⟨s0, d0⟩ := sd
      intro b s d hmem helig
      simp only [find_best_aux]
      rcases List.mem_cons.mp hmem with heq | hmem'
      · injection heq with hs hd
        subst hs
        subst hd
        by_cases hcond : (ltInfB d.total b.2 && eligibleB items_found d) = true
        · rw [if_pos hcond]
          exact find_best_aux_mono items_found rest (some s, some d.total)
            d.total rfl
        · rw [if_neg hcond]
          have hltf : ltInfB d.total b.2 = false := by
            cases hltb : ltInfB d.total b.2
            · rfl
            · exfalso
              apply hcond
              rw [Bool.and_eq_true]
              exact ⟨hltb, helig⟩
          cases hb2 : b.2 with
          | none =>
              rw [hb2] at hltf
              simp [ltInfB] at hltf
          | some t =>
              have hts : t ≤ d.total := by
                rw [hb2] at hltf
                unfold ltInfB at hltf
                simpa using hltf
              obtain ⟨u, hu, hle⟩ := find_best_aux_mono items_found rest b t hb2
              exact ⟨u, hu, le_trans hle hts⟩
      · exact ih _ s d hmem' helig

/-- C6: when the optimizer selects a `best_store`, that store's
matched-item count reaches the 70% coverage floor over the resolved
lines (`items_found`), and its running total is minimal among all
floor-reaching stores; a store below the floor is never selected even if
its partial total is lowest. -/
theorem c6_best_store_floor_and_minimal :
    ∀ (comparisons : List (String × PriceComparison))
      (shopping_list : List ShoppingItem) (acc : SLAccum) (r : SLResult),
      slFold comparisons shopping_list = Except.ok acc →
      get_shopping_list_comparison comparisons shopping_list = Except.ok r →
      r.items_compared = acc.items_found ∧
      (∀ s, r.best_store = some s →
        ∃ d, (s, d) ∈ acc.store_totals ∧
          (acc.items_found : ℚ) * (7/10) ≤ (d.items : ℚ) ∧
          ∀ s' d', (s', d') ∈ acc.store_totals →
            (acc.items_found : ℚ) * (7/10) ≤ (d'.items : ℚ) →
            d.total ≤ d'.total) ∧
      (∀ s d, (s, d) ∈ acc.store_totals →
        ¬((acc.items_found : ℚ) * (7/10) ≤ (d.items : ℚ)) →
        r.best_store ≠ some s) := by
  intro comps list acc r hfold hget
  unfold get_shopping_list_comparison at hget
  rw [hfold] at hget
  dsimp only at hget
  by_cases hlen : list.length = 0
  · rw [if_pos hlen] at hget
    cases hget
  · rw [if_neg hlen] at hget
    injection hget with hr
    subst hr
    have hpart2 : ∀ s,
        (find_best_aux acc.items_found acc.store_totals (none, none)).1 =
          some s →
        ∃ d, (s, d) ∈ acc.store_totals ∧
          (acc.items_found : ℚ) * (7/10) ≤ (d.items : ℚ) ∧
          ∀ s' d', (s', d') ∈ acc.store_totals →
            (acc.items_found : ℚ) * (7/10) ≤ (d'.items : ℚ) →
            d.total ≤ d'.total := by
      intro s hs
      rcases find_best_aux_result acc.items_found acc.store_totals (none, none)
        with hres | ⟨s₀, d₀, hmem, helig, hres⟩
      · rw [hres] at hs
        cases hs
      · rw [hres] at hs
        dsimp only at hs
        injection hs with hs0
        subst hs0
        refine ⟨d₀, hmem, ?_, ?_⟩
        · unfold eligibleB at helig
          exact of_decide_eq_true helig
        · intro s' d' hmem' helig'
          obtain ⟨u, hu, hle⟩ := find_best_aux_min acc.items_found
            acc.store_totals (none, none) s' d' hmem'
            (by unfold eligibleB; exact decide_eq_true helig')
          rw [hres] at hu
          dsimp only at hu
          injection hu with hu0
          rw [hu0]
          exact hle
    have hnd : (keysOf acc.store_totals).Nodup := by
      obtain ⟨_, hnodup, _⟩ :=
        slFold_inv comps list ⟨[], 0, 0⟩ acc
          (by unfold slFold at hfold; exact hfold)
      exact hnodup (by simp [keysOf])
    refine ⟨rfl, hpart2, ?_⟩
    intro s d hmem hnelig hbest
    obtain ⟨d₀, hmem₀, helig₀, _⟩ := hpart2 s hbest
    have hd : d = d₀ := dict_value_unique acc.store_totals s d d₀ hnd hmem hmem₀
    rw [hd] at hnelig
    exact hnelig helig₀

/-- Witness for C6 at the C2 counterexample's input, where the best
store is "s" with full coverage. -/
theorem c6_witness :
    ∃ r d, get_shopping_list_comparison compsC2 listC2 = Except.ok r ∧
      r.best_store = some "s" ∧
      ("s", d) ∈ [("s", (⟨5, 2, [7/10, 4/10]⟩ : StoreTotals))] ∧
      ((2 : ℕ) : ℚ) * (7/10) ≤ (d.items : ℚ) := by
  obtain ⟨r, hget, _, hbest⟩ := getC2_eval
  obtain ⟨d, hmem, helig, _⟩ :=
    (c6_best_store_floor_and_minimal compsC2 listC2
      ⟨[("s", ⟨5, 2, [7/10, 4/10]⟩)], 2, 0⟩ r slFoldC2_eval hget).2.1 "s" hbest
  exact ⟨r, d, hget, hbest, hmem, helig⟩
